import Mathlib

/-!
# ChanMgr: a bounded channel with full-detection, written through one goroutine

A shallow embedding of `mgr.go`.  The package is concurrent, so the embedding is
a transition system: every goroutine is a small program counter, every channel
is its buffer, and one `Action` is one atomic step of one goroutine.

* `c` (the managed `chan T`) is its buffer `List T` together with `cap(c)`;
* `l` (the control `chan *payload[T]`, capacity 1) is its buffer and a closed
  flag;
* every `make(chan error, 1)` of `submitPayload` is a fresh cell of `chans`;
* the goroutine started by `NewChanMgr` is `Loop`, a program counter, and
  `NewChanMgr.goroutine` is its step;
* a goroutine calling `Add` / `AddNoBlocking` is a `Caller`, and the three
  statements of `submitPayload` are its steps;
* receiving from `GetChan()` and cancelling the context are steps of the
  environment.

A goroutine that is blocked has no step.  A sender blocked on a full `l` is a
caller standing at `c <- p`: it moves once there is room, or returns
`ErrInvalidChanMgr` through the recovered panic once `l` is closed.  A
`select` with both cases ready may take either.
-/

namespace Channel

/-- The two package-level error values.  A nil `error` is `none : Option ChanErr`. -/
inductive ChanErr
  | ErrChanIsFull
  | ErrInvalidChanMgr
  deriving DecidableEq, Repr

/-- The struct `payload[T]`.  The field `c` is the reply channel, a pointer:
here the address of its cell in `Sys.chans`. -/
structure payload (T : Type) where
  blockable : Bool
  t : T
  c : Nat
  deriving DecidableEq, Repr

/-- The struct `ChanMgr[T]`: the buffer of `c` with its capacity, the buffer of
`l` (made with capacity 1) and whether `l` has been closed. -/
structure ChanMgr (T : Type) where
  c : List T
  capC : Nat
  l : List (payload T)
  lClosed : Bool
  deriving DecidableEq, Repr

/-- The method `GetChan`: the receive side of `c`. -/
def GetChan {T : Type} (m : ChanMgr T) : List T := m.c

/-- A call of one of the two exported submission methods. -/
inductive Call (T : Type)
  | Add (t : T)
  | AddNoBlocking (t : T)
  deriving DecidableEq, Repr

/-- The flag each method passes to `submitPayload`: `Add` passes true,
`AddNoBlocking` passes false. -/
def Call.blockable {T : Type} : Call T → Bool
  | .Add _ => true
  | .AddNoBlocking _ => false

/-- The item each method passes to `submitPayload`. -/
def Call.item {T : Type} : Call T → T
  | .Add t => t
  | .AddNoBlocking t => t

/-- Where a goroutine that calls the submission methods stands. -/
inductive CallPC (T : Type)
  /-- outside of any call -/
  | idle
  /-- in `submitPayload`, payload built, at `c <- p` -/
  | sending (p : payload T)
  /-- in `submitPayload`, at `err := <-p.c` -/
  | waiting (p : payload T)
  deriving DecidableEq, Repr

/-- A goroutine that calls `Add` / `AddNoBlocking` one call after the other:
the calls it still has to make and where it stands in the current one. -/
structure Caller (T : Type) where
  todo : List (Call T)
  pc : CallPC T
  deriving DecidableEq, Repr

/-- Where the goroutine started by `NewChanMgr` stands.  The local `exiting`
is false in the first five places and true in the others. -/
inductive Loop (T : Type)
  /-- `exiting` false, at the `select` -/
  | sel
  /-- `case p := <-m.l` taken, at `if !p.blockable` -/
  | got (p : payload T)
  /-- at `p.c <- ErrChanIsFull` -/
  | full (p : payload T)
  /-- at `c <- p.t` -/
  | write (p : payload T)
  /-- at `p.c <- nil` -/
  | ok (p : payload T)
  /-- `exiting` true, at the test `len(m.l) > 0` -/
  | drain
  /-- at `p := <-m.l` inside the draining loop -/
  | drainRecv
  /-- at `p.c <- ErrInvalidChanMgr` -/
  | drainReply (p : payload T)
  /-- at `close(m.l)` -/
  | closing
  /-- returned -/
  | done
  deriving DecidableEq, Repr

/-- The value of the local variable `exiting` at each place of the goroutine. -/
def Loop.exiting {T : Type} : Loop T → Bool
  | .sel => false
  | .got _ => false
  | .full _ => false
  | .write _ => false
  | .ok _ => false
  | .drain => true
  | .drainRecv => true
  | .drainReply _ => true
  | .closing => true
  | .done => true

/-- The payload the goroutine holds in its local `p`, if any. -/
def Loop.held {T : Type} : Loop T → List (payload T)
  | .got p => [p]
  | .full p => [p]
  | .write p => [p]
  | .ok p => [p]
  | .drainReply p => [p]
  | _ => []

/-- A call that has returned: who called, what, and the error returned. -/
structure Ret (T : Type) where
  caller : Nat
  call : Call T
  err : Option ChanErr
  deriving DecidableEq, Repr

/-- The call a payload was built for: `Add` passes true for `blockable`,
`AddNoBlocking` false. -/
def callOf {T : Type} (p : payload T) : Call T :=
  if p.blockable then .Add p.t else .AddNoBlocking p.t

/-- The record a call leaves in the history when it returns `e`. -/
def retOf {T : Type} (i : Nat) (p : payload T) (e : Option ChanErr) : Ret T :=
  { caller := i, call := callOf p, err := e }

/-- The whole system: the manager, the context, the manager's goroutine, the
calling goroutines, the reply channels made so far (`chans k` is the buffer of
the channel at address `k`, of capacity 1; `next` is the next free address),
and two histories: the calls that have returned and the items consumers have
received from `GetChan()`. -/
structure Sys (T : Type) where
  m : ChanMgr T
  ctxDone : Bool
  loop : Loop T
  callers : Nat → Caller T
  chans : Nat → Option (Option ChanErr)
  next : Nat
  returned : List (Ret T)
  received : List T

/-- The function `NewChanMgr` with a context that is not yet done: both
channels empty, the goroutine about to enter its loop with `exiting` false (the
first thing it then does is the `select`).  `scripts i` is what calling
goroutine `i` is going to do. -/
def NewChanMgr {T : Type} (capacity : Nat) (scripts : Nat → List (Call T)) : Sys T :=
  { m := { c := [], capC := capacity, l := [], lClosed := false }
    ctxDone := false
    loop := .sel
    callers := fun i => { todo := scripts i, pc := .idle }
    chans := fun _ => none
    next := 0
    returned := []
    received := [] }

/-- One atomic step of the goroutine of `NewChanMgr`; `none` when it is blocked
or has returned.  `preferDone` resolves the `select` when both cases can
proceed (Go picks one of them at random). -/
def NewChanMgr.goroutine {T : Type} (preferDone : Bool) (s : Sys T) : Option (Sys T) :=
  match s.loop with
  | .sel =>
    match s.m.l with
    | [] => if s.ctxDone then some { s with loop := .drain } else none
    | p :: rest =>
      if s.ctxDone && preferDone then some { s with loop := .drain }
      else some { s with m := { s.m with l := rest }, loop := .got p }
  | .got p =>
    if !p.blockable && s.m.c.length == s.m.capC then some { s with loop := .full p }
    else some { s with loop := .write p }
  | .full p =>
    match s.chans p.c with
    | none =>
      some { s with chans := Function.update s.chans p.c (some (some .ErrChanIsFull)), loop := .sel }
    | some _ => none
  | .write p =>
    if s.m.c.length < s.m.capC then
      some { s with m := { s.m with c := s.m.c ++ [p.t] }, loop := .ok p }
    else none
  | .ok p =>
    match s.chans p.c with
    | none => some { s with chans := Function.update s.chans p.c (some none), loop := .sel }
    | some _ => none
  | .drain =>
    if s.m.l.length > 0 then some { s with loop := .drainRecv }
    else some { s with loop := .closing }
  | .drainRecv =>
    match s.m.l with
    | [] => none
    | p :: rest => some { s with m := { s.m with l := rest }, loop := .drainReply p }
  | .drainReply p =>
    match s.chans p.c with
    | none =>
      some { s with chans := Function.update s.chans p.c (some (some .ErrInvalidChanMgr)),
                    loop := .drain }
    | some _ => none
  | .closing => some { s with m := { s.m with lClosed := true }, loop := .done }
  | .done => none

/-- Entering `Add` or `AddNoBlocking` and the first statement of
`submitPayload`: the payload is built around a fresh reply channel. -/
def submitPayload.build {T : Type} (i : Nat) (s : Sys T) : Option (Sys T) :=
  match (s.callers i).pc, (s.callers i).todo with
  | .idle, k :: rest =>
    some { s with
      callers := Function.update s.callers i
        { todo := rest, pc := .sending { blockable := k.blockable, t := k.item, c := s.next } }
      chans := Function.update s.chans s.next none
      next := s.next + 1 }
  | _, _ => none

/-- The statement `c <- p` of `submitPayload`.  On a closed `l` the send
panics; the deferred function of `Add` / `AddNoBlocking` recovers and the call
returns `ErrInvalidChanMgr`.  On an open `l` the payload enters the buffer if
there is room (capacity 1), otherwise the caller is blocked. -/
def submitPayload.send {T : Type} (i : Nat) (s : Sys T) : Option (Sys T) :=
  match (s.callers i).pc with
  | .sending p =>
    if s.m.lClosed then
      some { s with
        callers := Function.update s.callers i { todo := (s.callers i).todo, pc := .idle }
        returned := s.returned ++ [retOf i p (some .ErrInvalidChanMgr)] }
    else if s.m.l.length < 1 then
      some { s with
        m := { s.m with l := s.m.l ++ [p] }
        callers := Function.update s.callers i { todo := (s.callers i).todo, pc := .waiting p } }
    else none
  | _ => none

/-- The statement `err := <-p.c` of `submitPayload` followed by the returns
of `submitPayload` and of the method. -/
def submitPayload.recv {T : Type} (i : Nat) (s : Sys T) : Option (Sys T) :=
  match (s.callers i).pc with
  | .waiting p =>
    match s.chans p.c with
    | some e =>
      some { s with
        chans := Function.update s.chans p.c none
        callers := Function.update s.callers i { todo := (s.callers i).todo, pc := .idle }
        returned := s.returned ++ [retOf i p e] }
    | none => none
  | _ => none

/-- A consumer receives from `GetChan()`: the head of the buffer, or, when
`c` is unbuffered, directly the item the goroutine is sending at `c <- p.t`. -/
def consumeStep {T : Type} (s : Sys T) : Option (Sys T) :=
  match GetChan s.m with
  | x :: rest => some { s with m := { s.m with c := rest }, received := s.received ++ [x] }
  | [] =>
    match s.loop with
    | .write p =>
      if s.m.capC = 0 then some { s with loop := .ok p, received := s.received ++ [p.t] }
      else none
    | _ => none

/-- The context is cancelled: `ctx.Done()` is closed. -/
def cancelStep {T : Type} (s : Sys T) : Option (Sys T) :=
  some { s with ctxDone := true }

/-- The atomic steps of the system. -/
inductive Action
  /-- caller `i` enters its next call -/
  | call (i : Nat)
  /-- caller `i` executes `c <- p` -/
  | send (i : Nat)
  /-- caller `i` executes `err := <-p.c` and returns -/
  | recv (i : Nat)
  /-- the manager's goroutine makes a step -/
  | loop (preferDone : Bool)
  /-- a consumer receives from `GetChan()` -/
  | consume
  /-- the context is cancelled -/
  | cancel
  deriving DecidableEq, Repr

/-- One step of the system; `none` when the goroutine concerned cannot move. -/
def step {T : Type} (a : Action) (s : Sys T) : Option (Sys T) :=
  match a with
  | .call i => submitPayload.build i s
  | .send i => submitPayload.send i s
  | .recv i => submitPayload.recv i s
  | .loop b => NewChanMgr.goroutine b s
  | .consume => consumeStep s
  | .cancel => cancelStep s

/-- A schedule run strictly: every action must be able to move. -/
def run {T : Type} : List Action → Sys T → Option (Sys T)
  | [], s => some s
  | a :: as, s => (step a s).bind (run as)

/-- A schedule run leniently: a goroutine that is scheduled while it cannot
move stays where it is.  The states `exec tr s` for all `tr` are exactly the
states reachable from `s`. -/
def exec {T : Type} : List Action → Sys T → Sys T
  | [], s => s
  | a :: as, s => exec as ((step a s).getD s)

/-- The errors returned so far to caller `i`, oldest first. -/
def Sys.errsOf {T : Type} (s : Sys T) (i : Nat) : List (Option ChanErr) :=
  (s.returned.filter (fun r => r.caller == i)).map (fun r => r.err)

/-- The scripts of a system with a single calling goroutine, number 0. -/
def single {T : Type} (calls : List (Call T)) : Nat → List (Call T) :=
  fun i => if i = 0 then calls else []

/-! ## Auxiliary definitions for the proofs -/

/-- The transitions of `step`, listed one per constructor. -/
inductive Trans {T : Type} : Sys T → Sys T → Prop
  | call (s : Sys T) (i : Nat) (k : Call T) (rest : List (Call T))
      (hpc : (s.callers i).pc = .idle) (htodo : (s.callers i).todo = k :: rest) :
      Trans s { s with
        callers := Function.update s.callers i
          { todo := rest, pc := .sending { blockable := k.blockable, t := k.item, c := s.next } }
        chans := Function.update s.chans s.next none
        next := s.next + 1 }
  | sendPanic (s : Sys T) (i : Nat) (p : payload T)
      (hpc : (s.callers i).pc = .sending p) (hcl : s.m.lClosed = true) :
      Trans s { s with
        callers := Function.update s.callers i { todo := (s.callers i).todo, pc := .idle }
        returned := s.returned ++ [retOf i p (some .ErrInvalidChanMgr)] }
  | sendOk (s : Sys T) (i : Nat) (p : payload T)
      (hpc : (s.callers i).pc = .sending p) (hcl : s.m.lClosed = false) (hl : s.m.l = []) :
      Trans s { s with
        m := { s.m with l := s.m.l ++ [p] }
        callers := Function.update s.callers i { todo := (s.callers i).todo, pc := .waiting p } }
  | recv (s : Sys T) (i : Nat) (p : payload T) (e : Option ChanErr)
      (hpc : (s.callers i).pc = .waiting p) (hch : s.chans p.c = some e) :
      Trans s { s with
        chans := Function.update s.chans p.c none
        callers := Function.update s.callers i { todo := (s.callers i).todo, pc := .idle }
        returned := s.returned ++ [retOf i p e] }
  | selDone (s : Sys T) (hl : s.loop = .sel) (hd : s.ctxDone = true) :
      Trans s { s with loop := .drain }
  | selRecv (s : Sys T) (p : payload T) (rest : List (payload T))
      (hl : s.loop = .sel) (hq : s.m.l = p :: rest) :
      Trans s { s with m := { s.m with l := rest }, loop := .got p }
  | gotFull (s : Sys T) (p : payload T) (hl : s.loop = .got p)
      (hb : p.blockable = false) (hlen : s.m.c.length = s.m.capC) :
      Trans s { s with loop := .full p }
  | gotWrite (s : Sys T) (p : payload T) (hl : s.loop = .got p)
      (hb : p.blockable = true ∨ s.m.c.length ≠ s.m.capC) :
      Trans s { s with loop := .write p }
  | full (s : Sys T) (p : payload T) (hl : s.loop = .full p) (hch : s.chans p.c = none) :
      Trans s { s with
        chans := Function.update s.chans p.c (some (some .ErrChanIsFull)), loop := .sel }
  | write (s : Sys T) (p : payload T) (hl : s.loop = .write p)
      (hlen : s.m.c.length < s.m.capC) :
      Trans s { s with m := { s.m with c := s.m.c ++ [p.t] }, loop := .ok p }
  | ok (s : Sys T) (p : payload T) (hl : s.loop = .ok p) (hch : s.chans p.c = none) :
      Trans s { s with chans := Function.update s.chans p.c (some none), loop := .sel }
  | drainMore (s : Sys T) (hl : s.loop = .drain) (hq : s.m.l ≠ []) :
      Trans s { s with loop := .drainRecv }
  | drainEnd (s : Sys T) (hl : s.loop = .drain) (hq : s.m.l = []) :
      Trans s { s with loop := .closing }
  | drainRecv (s : Sys T) (p : payload T) (rest : List (payload T))
      (hl : s.loop = .drainRecv) (hq : s.m.l = p :: rest) :
      Trans s { s with m := { s.m with l := rest }, loop := .drainReply p }
  | drainReply (s : Sys T) (p : payload T) (hl : s.loop = .drainReply p)
      (hch : s.chans p.c = none) :
      Trans s { s with
        chans := Function.update s.chans p.c (some (some .ErrInvalidChanMgr)), loop := .drain }
  | close (s : Sys T) (hl : s.loop = .closing) :
      Trans s { s with m := { s.m with lClosed := true }, loop := .done }
  | consume (s : Sys T) (x : T) (rest : List T) (hc : s.m.c = x :: rest) :
      Trans s { s with m := { s.m with c := rest }, received := s.received ++ [x] }
  | handoff (s : Sys T) (p : payload T) (hc : s.m.c = []) (hl : s.loop = .write p)
      (h0 : s.m.capC = 0) :
      Trans s { s with loop := .ok p, received := s.received ++ [p.t] }
  | cancel (s : Sys T) : Trans s { s with ctxDone := true }

/-- A payload some goroutine currently refers to. -/
def present {T : Type} (s : Sys T) (p : payload T) : Prop :=
  (∃ i, (s.callers i).pc = .sending p ∨ (s.callers i).pc = .waiting p) ∨
    p ∈ s.m.l ∨ p ∈ s.loop.held

/-- Number of calls that have returned nil. -/
def nilReturned {T : Type} (s : Sys T) : Nat :=
  s.returned.countP (fun r => r.err == none)

/-- Number of reply channels that hold a nil nobody has read yet. -/
def unreadNil {T : Type} (s : Sys T) : Nat :=
  (List.range s.next).countP (fun k => s.chans k == some none)

/-- One when the goroutine has written an item and not yet replied. -/
def okPending {T : Type} (s : Sys T) : Nat :=
  match s.loop with
  | .ok _ => 1
  | _ => 0

/-- What holds in every state reachable from a fresh manager. -/
structure Inv {T : Type} (s : Sys T) : Prop where
  idLt : ∀ p, present s p → p.c < s.next
  uniq : ∀ p q, present s p → present s q → p.c = q.c → p = q
  fullNB : ∀ p, s.loop = .full p → p.blockable = false
  writeNB : ∀ p, s.loop = .write p → p.blockable = false → s.m.c.length < s.m.capC
  chFull : ∀ i p, ((s.callers i).pc = .sending p ∨ (s.callers i).pc = .waiting p) →
    s.chans p.c = some (some .ErrChanIsFull) → p.blockable = false
  retOK : ∀ r ∈ s.returned, r.call.blockable = true → r.err ≠ some .ErrChanIsFull
  capOK : s.m.c.length ≤ s.m.capC
  count : nilReturned s + unreadNil s + okPending s = s.m.c.length + s.received.length
  retInv : ∀ r ∈ s.returned, r.err = some .ErrInvalidChanMgr → s.loop.exiting = true
  chInv : ∀ k, s.chans k = some (some .ErrInvalidChanMgr) → s.loop.exiting = true
  closedDone : s.m.lClosed = true → s.loop = .done
  exitDone : s.loop.exiting = true → s.ctxDone = true
  lCap : s.m.l.length ≤ 1

/-- The items of the calls that have returned nil, oldest first. -/
def accepted {T : Type} (s : Sys T) : List T :=
  (s.returned.filter (fun r => r.err == none)).map (fun r => r.call.item)

/-- The item of caller 0 that is written but whose nil is not yet returned. -/
def pendingItem {T : Type} (s : Sys T) : List T :=
  (match s.loop with
    | .ok p => [p.t]
    | _ => []) ++
  (match (s.callers 0).pc with
    | .waiting p => if s.chans p.c = some none then [p.t] else []
    | _ => [])

/-- The call caller 0 is in, if any. -/
def curCall {T : Type} (s : Sys T) : List (Call T) :=
  match (s.callers 0).pc with
  | .idle => []
  | .sending p => [callOf p]
  | .waiting p => [callOf p]

/-- Where the payload of caller 0 is. -/
def flightOK {T : Type} (s : Sys T) : Prop :=
  match (s.callers 0).pc with
  | .idle => s.m.l = [] ∧ s.loop.held = []
  | .sending p => s.m.l = [] ∧ s.loop.held = [] ∧ s.chans p.c = none
  | .waiting p =>
    (s.m.l ++ s.loop.held = [p] ∧ s.chans p.c = none) ∨
      (s.m.l = [] ∧ s.loop.held = [] ∧ ∃ e, s.chans p.c = some e)

/-- What holds in every state reachable from a fresh manager of capacity
`capacity` used by the single caller 0 with script `calls`. -/
structure SInv {T : Type} (capacity : Nat) (calls : List (Call T)) (s : Sys T) : Prop where
  capEq : s.m.capC = capacity
  others : ∀ i, i ≠ 0 → (s.callers i).todo = [] ∧ (s.callers i).pc = .idle
  script : s.returned.map (fun r => r.call) ++ curCall s ++ (s.callers 0).todo = calls
  byZero : ∀ r ∈ s.returned, r.caller = 0
  flight : flightOK s
  fifo : s.received ++ s.m.c = accepted s ++ pendingItem s

/-- While nothing was consumed and the context is not cancelled, a caller
whose script fits the capacity has only seen nil. -/
structure CInv {T : Type} (capacity : Nat) (calls : List (Call T)) (s : Sys T) : Prop where
  inv : Inv s
  sinv : SInv capacity calls s
  clean : s.received = [] → s.ctxDone = false →
    (∀ r ∈ s.returned, r.err = none) ∧ (∀ k e, s.chans k = some e → e = none) ∧
      (∀ p, s.loop ≠ .full p)

/-- The steps of one call that is accepted: the caller builds and sends the
payload, the goroutine receives it, tests it, writes the item and replies,
the caller reads the reply. -/
def oneCall : List Action :=
  [.call 0, .send 0, .loop false, .loop false, .loop false, .loop false, .recv 0]

/-- The steps of `n` accepted calls in a row. -/
def schedule : Nat → List Action
  | 0 => []
  | n + 1 => oneCall ++ schedule n

/-- How a state `s` relates to an earlier state `s0` in which the goroutine
was already exiting. -/
structure After {T : Type} (s0 s : Sys T) : Prop where
  exiting : s.loop.exiting = true
  queue : ∃ pre, s0.m.c = pre ++ s.m.c
  rets : ∃ new, s.returned = s0.returned ++ new ∧
    ∀ r ∈ new, (s0.callers r.caller).pc = .idle → r.err = some .ErrInvalidChanMgr
  replies : ∀ i p, (s0.callers i).pc = .idle →
    ((s.callers i).pc = .sending p ∨ (s.callers i).pc = .waiting p) →
    s.chans p.c = none ∨ s.chans p.c = some (some .ErrInvalidChanMgr)

/-- The steps by which the goroutine services one request it finds in `l`:
it receives the payload, tests it, and then either replies (three steps in
all) or writes the item and replies (four steps). -/
def serve (full : Bool) : List Action :=
  if full then [.loop false, .loop false, .loop false]
  else [.loop false, .loop false, .loop false, .loop false]

/-- A manager of capacity 1 to which caller 0 has sent `AddNoBlocking(7)`. -/
def c1State : Sys Nat :=
  exec [.call 0, .send 0] (NewChanMgr 1 (single [Call.AddNoBlocking 7]))

/-- The scenario of the non-blocking rejection: capacity 1, one caller doing
`Add(1)` and then `AddNoBlocking(2)`. -/
def rejectInit : Sys Nat := NewChanMgr 1 (single [Call.Add 1, Call.AddNoBlocking 2])

/-- A schedule of `rejectInit` in which no consumer receives: `Add(1)` is
accepted, `AddNoBlocking(2)` is received, tested and rejected. -/
def rejectSchedule : List Action :=
  oneCall ++ [.call 0, .send 0, .loop false, .loop false, .loop false, .recv 0]

/-- A full manager of capacity 1 with `AddNoBlocking(2)` waiting in `l`. -/
def c3State : Sys Nat := exec (oneCall ++ [.call 0, .send 0]) rejectInit

/-- A schedule in which `Add(1)` is accepted and has returned nil. -/
def c4Schedule : List Action := oneCall

/-- A manager whose goroutine has seen the cancellation at once, found `l`
empty, closed it and returned; caller 0 has still to call `AddNoBlocking(5)`. -/
def c5State : Sys Nat :=
  exec [.cancel, .loop true, .loop true, .loop true]
    (NewChanMgr 1 (single [Call.AddNoBlocking 5]))

/-- The scenario of `TestContext`: capacity 1, one caller doing `Add(1)` and
later `Add(2)`. -/
def c6Init : Sys Nat := NewChanMgr 1 (single [Call.Add 1, Call.Add 2])

/-- `Add(1)` is accepted and returns, the context is cancelled, a consumer
receives the 1; `Add(2)` has not been called yet. -/
def c6Before : List Action := oneCall ++ [.cancel, .consume]

/-- The scenario of the lost request: capacity 1, one caller doing `Add(1)`. -/
def c7Init : Sys Nat := NewChanMgr 1 (single [Call.Add 1])

/-- The caller builds its payload; the context is cancelled; the goroutine
takes the cancellation, finds `len(m.l) > 0` false and leaves the draining
loop; the caller sends into the still open `l`; the goroutine closes `l` and
returns. -/
def c7Schedule : List Action :=
  [.call 0, .cancel, .loop true, .loop true, .send 0, .loop true]

/-- The state of a caller whose request was left in the closed `l`. -/
structure Lost {T : Type} (p : payload T) (s : Sys T) : Prop where
  loopDone : s.loop = .done
  closed : s.m.lClosed = true
  inL : s.m.l = [p]
  noReply : s.chans p.c = none
  waits : (s.callers 0).pc = .waiting p
  noReturn : s.returned = []
  others : ∀ i, i ≠ 0 → (s.callers i).pc = .idle ∧ (s.callers i).todo = []

/-- The scenario of `TestContext3`: capacity 1, one caller doing `Add(1)` and
then `AddNoBlocking(1)`. -/
def c8Init : Sys Nat := NewChanMgr 1 (single [Call.Add 1, Call.AddNoBlocking 1])

/-- The context is cancelled before anything else; `Add(1)` is accepted, the
`select` taking the request although `ctx.Done()` is ready; then
`AddNoBlocking(1)` is received in the same way, tested against the full `c`
and rejected. -/
def c8Schedule : List Action :=
  [.cancel] ++ oneCall ++ [.call 0, .send 0, .loop false, .loop false, .loop false, .recv 0]

/-- The scenario of `TestChanMgrBlocking`: capacity 1, one caller doing
`Add(1)` and then `Add(2)`. -/
def c9Init : Sys Nat := NewChanMgr 1 (single [Call.Add 1, Call.Add 2])

/-- `Add(1)` is accepted and returns; `Add(2)` is sent, received and tested:
the goroutine is at `c <- p.t` with `c` full. -/
def c9Blocked : List Action := oneCall ++ [.call 0, .send 0, .loop false, .loop false]

/-- A consumer receives the 1; the goroutine writes the 2 and replies; the
caller reads the reply. -/
def c9Resume : List Action := [.consume, .loop false, .loop false, .recv 0]

/-- `Add(1)` is accepted and returns; the context is cancelled; the goroutine
takes the cancellation, finds `l` empty, closes it and returns; `Add(2)` is
called and its send meets the closed `l`.  No consumer receives. -/
def c9Cancelled : List Action :=
  oneCall ++ [.cancel, .loop true, .loop true, .loop true, .call 0, .send 0]

/-- One caller that is going to do `Add(1)` and then `Add(2)`; the context is
cancelled at once, the goroutine closes `l`, and `Add(1)` returns
`ErrInvalidChanMgr`. -/
def c10Before : List Action :=
  [.cancel, .loop true, .call 0, .loop true, .loop true, .send 0]

/-! # Theorems -/

/-! ## The transitions, one by one -/

theorem trans_of_loopStep {T : Type} {b : Bool} {s s' : Sys T} (h : NewChanMgr.goroutine b s = some s') :
    Trans s s' := by
  unfold NewChanMgr.goroutine at h
  split at h
  · rename_i hl
    split at h
    · rename_i hq
      split at h
      · rename_i hd
        cases h
        exact Trans.selDone s hl hd
      · cases h
    · rename_i p rest hq
      split at h
      · rename_i hd
        simp only [Bool.and_eq_true] at hd
        cases h
        exact Trans.selDone s hl hd.1
      · cases h
        exact Trans.selRecv s p rest hl hq
  · rename_i p hl
    split at h
    · rename_i hc
      simp only [Bool.and_eq_true, Bool.not_eq_true', beq_iff_eq] at hc
      cases h
      exact Trans.gotFull s p hl hc.1 hc.2
    · rename_i hc
      simp only [Bool.and_eq_true, Bool.not_eq_true', beq_iff_eq, not_and] at hc
      cases h
      refine Trans.gotWrite s p hl ?_
      cases hb : p.blockable
      · exact Or.inr (hc hb)
      · exact Or.inl rfl
  · rename_i p hl
    split at h
    · rename_i hch
      cases h
      exact Trans.full s p hl hch
    · cases h
  · rename_i p hl
    split at h
    · rename_i hlen
      cases h
      exact Trans.write s p hl hlen
    · cases h
  · rename_i p hl
    split at h
    · rename_i hch
      cases h
      exact Trans.ok s p hl hch
    · cases h
  · rename_i hl
    split at h
    · rename_i hq
      cases h
      refine Trans.drainMore s hl ?_
      intro h0
      simp [h0] at hq
    · rename_i hq
      cases h
      refine Trans.drainEnd s hl ?_
      simpa using hq
  · rename_i hl
    split at h
    · cases h
    · rename_i p rest hq
      cases h
      exact Trans.drainRecv s p rest hl hq
  · rename_i p hl
    split at h
    · rename_i hch
      cases h
      exact Trans.drainReply s p hl hch
    · cases h
  · rename_i hl
    cases h
    exact Trans.close s hl
  · cases h

theorem trans_of_step {T : Type} {a : Action} {s s' : Sys T} (h : step a s = some s') :
    Trans s s' := by
  cases a with
  | call i =>
    simp only [step, submitPayload.build] at h
    split at h
    · rename_i k rest hpc htodo
      cases h
      exact Trans.call s i k rest hpc htodo
    · cases h
  | send i =>
    simp only [step, submitPayload.send] at h
    split at h
    · rename_i p hpc
      split at h
      · rename_i hcl
        cases h
        exact Trans.sendPanic s i p hpc hcl
      · rename_i hcl
        split at h
        · rename_i hlen
          cases h
          refine Trans.sendOk s i p hpc (by simpa using hcl) ?_
          exact List.length_eq_zero.mp (by omega)
        · cases h
    · cases h
  | recv i =>
    simp only [step, submitPayload.recv] at h
    split at h
    · rename_i p hpc
      split at h
      · rename_i e hch
        cases h
        exact Trans.recv s i p e hpc hch
      · cases h
    · cases h
  | loop b => exact trans_of_loopStep h
  | consume =>
    simp only [step, consumeStep, GetChan] at h
    split at h
    · rename_i x rest hc
      cases h
      exact Trans.consume s x rest hc
    · rename_i hc
      split at h
      · rename_i p hl
        split at h
        · rename_i h0
          cases h
          exact Trans.handoff s p hc hl h0
        · cases h
      · cases h
  | cancel =>
    simp only [step, cancelStep] at h
    cases h
    exact Trans.cancel s

theorem exec_induct {T : Type} (P : Sys T → Prop)
    (hstep : ∀ s s', P s → Trans s s' → P s') :
    ∀ (tr : List Action) (s : Sys T), P s → P (exec tr s) := by
  intro tr
  induction tr with
  | nil => intro s hs; exact hs
  | cons a as ih =>
    intro s hs
    simp only [exec]
    apply ih
    cases h : step a s with
    | none => simpa using hs
    | some s' => simpa using hstep s s' hs (trans_of_step h)

/-! ## Invariants of every reachable state -/

theorem present_of_caller {T : Type} {s : Sys T} {i : Nat} {p : payload T}
    (h : (s.callers i).pc = .sending p ∨ (s.callers i).pc = .waiting p) : present s p :=
  Or.inl ⟨i, h⟩

theorem present_callers_update {T : Type} {s : Sys T} {i : Nat} {c : Caller T}
    {q : payload T}
    (hq : ∃ j, (Function.update s.callers i c j).pc = .sending q ∨
      (Function.update s.callers i c j).pc = .waiting q) :
    (∃ j, (s.callers j).pc = .sending q ∨ (s.callers j).pc = .waiting q) ∨
      c.pc = .sending q ∨ c.pc = .waiting q := by
  obtain ⟨j, hj⟩ := hq
  by_cases hji : j = i
  · subst hji
    simp only [Function.update_same] at hj
    exact Or.inr hj
  · simp only [Function.update_noteq hji] at hj
    exact Or.inl ⟨j, hj⟩

theorem present_same {T : Type} {s s' : Sys T} {q : payload T}
    (hq : present s' q) (hc : s'.callers = s.callers)
    (hm : q ∈ s'.m.l ∨ q ∈ s'.loop.held → q ∈ s.m.l ∨ q ∈ s.loop.held) :
    present s q := by
  rcases hq with h1 | h1
  · rw [hc] at h1
    exact Or.inl h1
  · exact Or.inr (hm h1)

theorem present_trans {T : Type} {s s' : Sys T} (h : Trans s s') :
    ∃ o : Option (payload T), (∀ p0 ∈ o, p0.c = s.next ∧ s'.next = s.next + 1) ∧
      ∀ p, present s' p → present s p ∨ o = some p := by
  cases h with
  | call i k rest hpc htodo =>
    refine ⟨some { blockable := k.blockable, t := k.item, c := s.next }, ?_, ?_⟩
    · intro p0 hp0
      simp only [Option.mem_def, Option.some.injEq] at hp0
      subst hp0
      exact ⟨rfl, rfl⟩
    · intro q hq
      rcases hq with hq | hq | hq
      · rcases present_callers_update hq with h1 | h1 | h1
        · exact Or.inl (Or.inl h1)
        · simp only [CallPC.sending.injEq] at h1
          exact Or.inr (by rw [h1])
        · cases h1
      · exact Or.inl (Or.inr (Or.inl hq))
      · exact Or.inl (Or.inr (Or.inr hq))
  | sendPanic i p hpc hcl =>
    refine ⟨none, by simp, ?_⟩
    intro q hq
    rcases hq with hq | hq | hq
    · rcases present_callers_update hq with h1 | h1 | h1
      · exact Or.inl (Or.inl h1)
      · cases h1
      · cases h1
    · exact Or.inl (Or.inr (Or.inl hq))
    · exact Or.inl (Or.inr (Or.inr hq))
  | sendOk i p hpc hcl hl =>
    refine ⟨none, by simp, ?_⟩
    intro q hq
    rcases hq with hq | hq | hq
    · rcases present_callers_update hq with h1 | h1 | h1
      · exact Or.inl (Or.inl h1)
      · cases h1
      · simp only [CallPC.waiting.injEq] at h1
        subst h1
        exact Or.inl (Or.inl ⟨i, Or.inl hpc⟩)
    · simp only [hl, List.nil_append, List.mem_singleton] at hq
      subst hq
      exact Or.inl (Or.inl ⟨i, Or.inl hpc⟩)
    · exact Or.inl (Or.inr (Or.inr hq))
  | recv i p e hpc hch =>
    refine ⟨none, by simp, ?_⟩
    intro q hq
    rcases hq with hq | hq | hq
    · rcases present_callers_update hq with h1 | h1 | h1
      · exact Or.inl (Or.inl h1)
      · cases h1
      · cases h1
    · exact Or.inl (Or.inr (Or.inl hq))
    · exact Or.inl (Or.inr (Or.inr hq))
  | selDone hl hd =>
    refine ⟨none, by simp, fun q h1 => Or.inl (present_same h1 rfl ?_)⟩
    simp [Loop.held, hl]
  | selRecv p rest hl hq =>
    refine ⟨none, by simp, fun q h1 => Or.inl (present_same h1 rfl ?_)⟩
    simp only [Loop.held, hl, hq]
    simp
    tauto
  | gotFull p hl hb hlen =>
    refine ⟨none, by simp, fun q h1 => Or.inl (present_same h1 rfl ?_)⟩
    simp [Loop.held, hl]
  | gotWrite p hl hb =>
    refine ⟨none, by simp, fun q h1 => Or.inl (present_same h1 rfl ?_)⟩
    simp [Loop.held, hl]
  | full p hl hch =>
    refine ⟨none, by simp, fun q h1 => Or.inl (present_same h1 rfl ?_)⟩
    simp only [Loop.held, hl]
    simp
    tauto
  | write p hl hlen =>
    refine ⟨none, by simp, fun q h1 => Or.inl (present_same h1 rfl ?_)⟩
    simp [Loop.held, hl]
  | ok p hl hch =>
    refine ⟨none, by simp, fun q h1 => Or.inl (present_same h1 rfl ?_)⟩
    simp only [Loop.held, hl]
    simp
    tauto
  | drainMore hl hq =>
    refine ⟨none, by simp, fun q h1 => Or.inl (present_same h1 rfl ?_)⟩
    simp [Loop.held, hl]
  | drainEnd hl hq =>
    refine ⟨none, by simp, fun q h1 => Or.inl (present_same h1 rfl ?_)⟩
    simp [Loop.held, hl]
  | drainRecv p rest hl hq =>
    refine ⟨none, by simp, fun q h1 => Or.inl (present_same h1 rfl ?_)⟩
    simp only [Loop.held, hl, hq]
    simp
    tauto
  | drainReply p hl hch =>
    refine ⟨none, by simp, fun q h1 => Or.inl (present_same h1 rfl ?_)⟩
    simp only [Loop.held, hl]
    simp
    tauto
  | close hl =>
    refine ⟨none, by simp, fun q h1 => Or.inl (present_same h1 rfl ?_)⟩
    simp [Loop.held, hl]
  | consume x rest hc =>
    refine ⟨none, by simp, fun q h1 => Or.inl (present_same h1 rfl ?_)⟩
    simp
  | handoff p hc hl h0 =>
    refine ⟨none, by simp, fun q h1 => Or.inl (present_same h1 rfl ?_)⟩
    simp [Loop.held, hl]
  | cancel =>
    refine ⟨none, by simp, fun q h1 => Or.inl (present_same h1 rfl ?_)⟩
    simp

theorem inv_capOK {T : Type} {s s' : Sys T} (h : Trans s s') (hi : Inv s) :
    s'.m.c.length ≤ s'.m.capC := by
  have := hi.capOK
  cases h <;> simp_all <;> omega

theorem inv_fullNB {T : Type} {s s' : Sys T} (h : Trans s s') (hi : Inv s) :
    ∀ p, s'.loop = .full p → p.blockable = false := by
  have := hi.fullNB
  cases h <;> simp_all

theorem inv_writeNB {T : Type} {s s' : Sys T} (h : Trans s s') (hi : Inv s) :
    ∀ p, s'.loop = .write p → p.blockable = false → s'.m.c.length < s'.m.capC := by
  have h1 := hi.writeNB
  have h2 := hi.capOK
  cases h with
  | gotWrite p hl hb =>
    intro q hq hqb
    simp only [Loop.write.injEq] at hq
    subst hq
    simp only [hqb, Bool.false_eq_true, false_or] at hb
    simp only
    omega
  | _ => simp_all <;> omega

theorem inv_exitDone {T : Type} {s s' : Sys T} (h : Trans s s') (hi : Inv s) :
    s'.loop.exiting = true → s'.ctxDone = true := by
  have := hi.exitDone
  cases h <;> simp_all [Loop.exiting]

theorem inv_closedDone {T : Type} {s s' : Sys T} (h : Trans s s') (hi : Inv s) :
    s'.m.lClosed = true → s'.loop = .done := by
  have := hi.closedDone
  cases h <;> simp_all

theorem inv_lCap {T : Type} {s s' : Sys T} (h : Trans s s') (hi : Inv s) :
    s'.m.l.length ≤ 1 := by
  have := hi.lCap
  cases h <;> simp_all

theorem exiting_trans {T : Type} {s s' : Sys T} (h : Trans s s')
    (he : s.loop.exiting = true) : s'.loop.exiting = true := by
  cases h <;> simp_all [Loop.exiting]

theorem inv_retInv {T : Type} {s s' : Sys T} (h : Trans s s') (hi : Inv s) :
    ∀ r ∈ s'.returned, r.err = some .ErrInvalidChanMgr → s'.loop.exiting = true := by
  have h1 := hi.retInv
  have h2 := hi.chInv
  have h3 := hi.closedDone
  have h4 : ∀ r ∈ s.returned, r.err = some .ErrInvalidChanMgr → s'.loop.exiting = true :=
    fun r hr he => exiting_trans h (h1 r hr he)
  cases h with
  | sendPanic i p hpc hcl =>
    intro r hr he
    simp only [List.mem_append, List.mem_singleton] at hr
    rcases hr with hr | hr
    · exact h4 r hr he
    · simp [h3 hcl, Loop.exiting]
  | recv i p e hpc hch =>
    intro r hr he
    simp only [List.mem_append, List.mem_singleton] at hr
    rcases hr with hr | hr
    · exact h4 r hr he
    · subst hr
      simp only [retOf] at he
      subst he
      exact h2 _ hch
  | _ => exact h4

theorem inv_chInv {T : Type} {s s' : Sys T} (h : Trans s s') (hi : Inv s) :
    ∀ k, s'.chans k = some (some .ErrInvalidChanMgr) → s'.loop.exiting = true := by
  have h2 := hi.chInv
  have h4 : ∀ k, s.chans k = some (some .ErrInvalidChanMgr) → s'.loop.exiting = true :=
    fun k hk => exiting_trans h (h2 k hk)
  cases h with
  | call i k rest hpc htodo =>
    intro j hj
    by_cases hjn : j = s.next
    · subst hjn
      simp at hj
    · simp only [Function.update_noteq hjn] at hj
      exact h4 j hj
  | recv i p e hpc hch =>
    intro j hj
    by_cases hjn : j = p.c
    · subst hjn
      simp at hj
    · simp only [Function.update_noteq hjn] at hj
      exact h4 j hj
  | full p hl hch =>
    intro j hj
    by_cases hjn : j = p.c
    · subst hjn
      simp at hj
    · simp only [Function.update_noteq hjn] at hj
      exact h4 j hj
  | ok p hl hch =>
    intro j hj
    by_cases hjn : j = p.c
    · subst hjn
      simp at hj
    · simp only [Function.update_noteq hjn] at hj
      exact h4 j hj
  | drainReply p hl hch =>
    intro j hj
    simp [Loop.exiting]
  | _ => exact h4

theorem retOf_blockable {T : Type} (i : Nat) (p : payload T) (e : Option ChanErr) :
    (retOf i p e).call.blockable = p.blockable := by
  cases hb : p.blockable <;> simp [retOf, callOf, hb, Call.blockable]

theorem retOf_item {T : Type} (i : Nat) (p : payload T) (e : Option ChanErr) :
    (retOf i p e).call.item = p.t := by
  cases hb : p.blockable <;> simp [retOf, callOf, hb, Call.item]

theorem inv_retOK {T : Type} {s s' : Sys T} (h : Trans s s') (hi : Inv s) :
    ∀ r ∈ s'.returned, r.call.blockable = true → r.err ≠ some .ErrChanIsFull := by
  have h1 := hi.retOK
  have h2 := hi.chFull
  cases h with
  | sendPanic i p hpc hcl =>
    intro r hr hb
    simp only [List.mem_append, List.mem_singleton] at hr
    rcases hr with hr | hr
    · exact h1 r hr hb
    · subst hr
      simp [retOf]
  | recv i p e hpc hch =>
    intro r hr hb
    simp only [List.mem_append, List.mem_singleton] at hr
    rcases hr with hr | hr
    · exact h1 r hr hb
    · subst hr
      rw [retOf_blockable] at hb
      intro he
      simp only [retOf] at he
      subst he
      have := h2 i p (Or.inr hpc) hch
      simp [hb] at this
  | _ => exact h1

theorem inv_chFull {T : Type} {s s' : Sys T} (h : Trans s s') (hi : Inv s) :
    ∀ i p, ((s'.callers i).pc = .sending p ∨ (s'.callers i).pc = .waiting p) →
      s'.chans p.c = some (some .ErrChanIsFull) → p.blockable = false := by
  have h2 := hi.chFull
  have h3 := hi.idLt
  cases h with
  | call i k rest hpc htodo =>
    intro j q hq hch
    by_cases hji : j = i
    · subst hji
      simp only [Function.update_same] at hq
      rcases hq with hq | hq
      · simp only [CallPC.sending.injEq] at hq
        subst hq
        simp at hch
      · cases hq
    · simp only [Function.update_noteq hji] at hq
      have hlt := h3 q (present_of_caller hq)
      have hne : q.c ≠ s.next := by omega
      simp only [Function.update_noteq hne] at hch
      exact h2 j q hq hch
  | sendPanic i p hpc hcl =>
    intro j q hq hch
    by_cases hji : j = i
    · subst hji
      simp only [Function.update_same] at hq
      rcases hq with hq | hq <;> cases hq
    · simp only [Function.update_noteq hji] at hq
      exact h2 j q hq hch
  | sendOk i p hpc hcl hl =>
    intro j q hq hch
    by_cases hji : j = i
    · subst hji
      simp only [Function.update_same] at hq
      rcases hq with hq | hq
      · cases hq
      · simp only [CallPC.waiting.injEq] at hq
        subst hq
        exact h2 j p (Or.inl hpc) hch
    · simp only [Function.update_noteq hji] at hq
      exact h2 j q hq hch
  | recv i p e hpc hch =>
    intro j q hq hch'
    by_cases hji : j = i
    · subst hji
      simp only [Function.update_same] at hq
      rcases hq with hq | hq <;> cases hq
    · simp only [Function.update_noteq hji] at hq
      by_cases hc : q.c = p.c
      · rw [hc] at hch'
        simp at hch'
      · simp only [Function.update_noteq hc] at hch'
        exact h2 j q hq hch'
  | full p hl hch =>
    intro j q hq hch'
    by_cases hc : q.c = p.c
    · have : q = p := hi.uniq q p (present_of_caller hq)
        (Or.inr (Or.inr (by simp [hl, Loop.held]))) hc
      subst this
      exact hi.fullNB q hl
    · simp only [Function.update_noteq hc] at hch'
      exact h2 j q hq hch'
  | ok p hl hch =>
    intro j q hq hch'
    by_cases hc : q.c = p.c
    · rw [hc] at hch'
      simp at hch'
    · simp only [Function.update_noteq hc] at hch'
      exact h2 j q hq hch'
  | drainReply p hl hch =>
    intro j q hq hch'
    by_cases hc : q.c = p.c
    · rw [hc] at hch'
      simp at hch'
    · simp only [Function.update_noteq hc] at hch'
      exact h2 j q hq hch'
  | _ => exact h2

theorem next_trans {T : Type} {s s' : Sys T} (h : Trans s s') : s.next ≤ s'.next := by
  cases h <;> simp

theorem inv_idLt {T : Type} {s s' : Sys T} (h : Trans s s') (hi : Inv s) :
    ∀ p, present s' p → p.c < s'.next := by
  intro p hp
  obtain ⟨o, ho, hall⟩ := present_trans h
  rcases hall p hp with h1 | h1
  · exact lt_of_lt_of_le (hi.idLt p h1) (next_trans h)
  · obtain ⟨h2, h3⟩ := ho p h1
    omega

theorem inv_uniq {T : Type} {s s' : Sys T} (h : Trans s s') (hi : Inv s) :
    ∀ p q, present s' p → present s' q → p.c = q.c → p = q := by
  intro p q hp hq hc
  obtain ⟨o, ho, hall⟩ := present_trans h
  rcases hall p hp with h1 | h1 <;> rcases hall q hq with h2 | h2
  · exact hi.uniq p q h1 h2 hc
  · have := hi.idLt p h1
    have := (ho q h2).1
    omega
  · have := hi.idLt q h2
    have := (ho p h1).1
    omega
  · rw [h1] at h2
    exact Option.some.inj h2

theorem cnt_congr (n : Nat) (f g : Nat → Option (Option ChanErr))
    (h : ∀ k, k < n → f k = g k) :
    (List.range n).countP (fun k => f k == some none) =
      (List.range n).countP (fun k => g k == some none) := by
  apply List.countP_congr
  intro k hk
  rw [h k (List.mem_range.mp hk)]

theorem cnt_succ (n : Nat) (f : Nat → Option (Option ChanErr)) :
    (List.range (n + 1)).countP (fun k => f k == some none) =
      (List.range n).countP (fun k => f k == some none) + (if f n = some none then 1 else 0) := by
  rw [List.range_succ, List.countP_append]
  by_cases h : f n = some none <;> simp [List.countP_cons, h]

theorem cnt_update (n k : Nat) (f : Nat → Option (Option ChanErr)) (v : Option (Option ChanErr))
    (hk : k < n) :
    (List.range n).countP (fun j => Function.update f k v j == some none) +
        (if f k = some none then 1 else 0) =
      (List.range n).countP (fun j => f j == some none) + (if v = some none then 1 else 0) := by
  induction n with
  | zero => omega
  | succ n ih =>
    rw [cnt_succ, cnt_succ]
    by_cases hkn : k = n
    · subst hkn
      rw [cnt_congr k (Function.update f k v) f
        (fun j hj => Function.update_noteq (Nat.ne_of_lt hj) v f)]
      simp only [Function.update_same]
      omega
    · have hlt : k < n := by omega
      have := ih hlt
      rw [Function.update_noteq (Ne.symm hkn)]
      omega

theorem inv_count {T : Type} {s s' : Sys T} (h : Trans s s') (hi : Inv s) :
    nilReturned s' + unreadNil s' + okPending s' = s'.m.c.length + s'.received.length := by
  have h1 := hi.count
  have h3 := hi.idLt
  simp only [nilReturned, unreadNil, okPending] at h1 ⊢
  cases h with
  | call i k rest hpc htodo =>
    simp only
    rw [cnt_succ, cnt_congr s.next (Function.update s.chans s.next none) s.chans
      (fun j hj => Function.update_noteq (Nat.ne_of_lt hj) none s.chans)]
    simp only [Function.update_same]
    simpa using h1
  | sendPanic i p hpc hcl =>
    simp only [List.countP_append]
    simpa [retOf] using h1
  | sendOk i p hpc hcl hl => simpa using h1
  | recv i p e hpc hch =>
    have hlt := h3 p (present_of_caller (Or.inr hpc))
    have := cnt_update s.next p.c s.chans none hlt
    simp only [List.countP_append]
    rw [hch] at this
    cases e with
    | none =>
      simp [retOf] at this ⊢
      omega
    | some e =>
      simp [retOf] at this ⊢
      omega
  | selDone hl hd => simpa [hl] using h1
  | selRecv p rest hl hq => simpa [hl] using h1
  | gotFull p hl hb hlen => simpa [hl] using h1
  | gotWrite p hl hb => simpa [hl] using h1
  | full p hl hch =>
    have hlt := h3 p (Or.inr (Or.inr (by simp [hl, Loop.held])))
    have := cnt_update s.next p.c s.chans (some (some .ErrChanIsFull)) hlt
    rw [hch] at this
    simp [hl] at this h1 ⊢
    omega
  | write p hl hlen =>
    simp [hl] at h1 ⊢
    omega
  | ok p hl hch =>
    have hlt := h3 p (Or.inr (Or.inr (by simp [hl, Loop.held])))
    have := cnt_update s.next p.c s.chans (some none) hlt
    rw [hch] at this
    simp [hl] at this h1 ⊢
    omega
  | drainMore hl hq => simpa [hl] using h1
  | drainEnd hl hq => simpa [hl] using h1
  | drainRecv p rest hl hq => simpa [hl] using h1
  | drainReply p hl hch =>
    have hlt := h3 p (Or.inr (Or.inr (by simp [hl, Loop.held])))
    have := cnt_update s.next p.c s.chans (some (some .ErrInvalidChanMgr)) hlt
    rw [hch] at this
    simp [hl] at this h1 ⊢
    omega
  | close hl => simpa [hl] using h1
  | consume x rest hc =>
    simp [hc] at h1 ⊢
    omega
  | handoff p hc hl h0 =>
    simp [hl] at h1 ⊢
    omega
  | cancel => simpa using h1

theorem inv_trans {T : Type} {s s' : Sys T} (hi : Inv s) (h : Trans s s') : Inv s' :=
  { idLt := inv_idLt h hi
    uniq := inv_uniq h hi
    fullNB := inv_fullNB h hi
    writeNB := inv_writeNB h hi
    chFull := inv_chFull h hi
    retOK := inv_retOK h hi
    capOK := inv_capOK h hi
    count := inv_count h hi
    retInv := inv_retInv h hi
    chInv := inv_chInv h hi
    closedDone := inv_closedDone h hi
    exitDone := inv_exitDone h hi
    lCap := inv_lCap h hi }

theorem inv_init {T : Type} (capacity : Nat) (scripts : Nat → List (Call T)) :
    Inv (NewChanMgr capacity scripts) := by
  constructor <;> simp [NewChanMgr, present, Loop.held, nilReturned, unreadNil, okPending,
    Loop.exiting]

theorem inv_exec {T : Type} (capacity : Nat) (scripts : Nat → List (Call T))
    (tr : List Action) : Inv (exec tr (NewChanMgr capacity scripts)) :=
  exec_induct Inv (fun _ _ hi h => inv_trans hi h) tr _ (inv_init capacity scripts)

/-! ## A single calling goroutine -/

theorem app_single {α : Type} (l : List α) (p q : α) : l ++ [p] = [q] ↔ l = [] ∧ p = q := by
  cases l with
  | nil => simp
  | cons a l => simp

theorem retOf_err {T : Type} (i : Nat) (p : payload T) (e : Option ChanErr) :
    (retOf i p e).err = e := rfl

theorem callOf_mk {T : Type} (k : Call T) (n : Nat) :
    callOf { blockable := k.blockable, t := k.item, c := n } = k := by
  cases k <;> simp [callOf, Call.blockable, Call.item]

theorem sinv_init {T : Type} (capacity : Nat) (calls : List (Call T)) :
    SInv capacity calls (NewChanMgr capacity (single calls)) := by
  constructor <;> simp [NewChanMgr, single, curCall, flightOK, Loop.held, accepted, pendingItem]
  intro i hi
  simp [hi]

theorem sinv_trans {T : Type} {capacity : Nat} {calls : List (Call T)} {s s' : Sys T}
    (hi : SInv capacity calls s) (h : Trans s s') : SInv capacity calls s' := by
  obtain ⟨h1, h2, h3, h4, h5, h6⟩ := hi
  cases h with
  | call i k rest hpc htodo =>
    have hi0 : i = 0 := by
      by_contra hne
      simp [(h2 i hne).1] at htodo
    subst hi0
    simp only [flightOK, hpc] at h5
    refine ⟨h1, ?_, ?_, h4, ?_, ?_⟩
    · intro j hj
      simp only [Function.update_noteq hj]
      exact h2 j hj
    · simp only [curCall, hpc, htodo] at h3 ⊢
      simp [callOf_mk]
      simpa using h3
    · simp [flightOK, h5]
    · simp only [accepted, pendingItem, hpc] at h6 ⊢
      simpa using h6
  | selDone hl hd =>
    refine ⟨h1, h2, by simpa [curCall] using h3, h4, ?_, ?_⟩
    · cases hpc0 : (s.callers 0).pc <;> simp_all [flightOK, Loop.held, app_single]
    · cases hpc0 : (s.callers 0).pc <;> simp_all [flightOK, Loop.held, accepted, pendingItem, app_single]
  | selRecv p rest hl hq =>
    refine ⟨h1, h2, by simpa [curCall] using h3, h4, ?_, ?_⟩
    · cases hpc0 : (s.callers 0).pc <;> simp_all [flightOK, Loop.held, app_single]
    · cases hpc0 : (s.callers 0).pc <;> simp_all [flightOK, Loop.held, accepted, pendingItem, app_single]
  | gotFull p hl hb hlen =>
    refine ⟨h1, h2, by simpa [curCall] using h3, h4, ?_, ?_⟩
    · cases hpc0 : (s.callers 0).pc <;> simp_all [flightOK, Loop.held, app_single]
    · cases hpc0 : (s.callers 0).pc <;> simp_all [flightOK, Loop.held, accepted, pendingItem, app_single]
  | gotWrite p hl hb =>
    refine ⟨h1, h2, by simpa [curCall] using h3, h4, ?_, ?_⟩
    · cases hpc0 : (s.callers 0).pc <;> simp_all [flightOK, Loop.held, app_single]
    · cases hpc0 : (s.callers 0).pc <;> simp_all [flightOK, Loop.held, accepted, pendingItem, app_single]
  | full p hl hch =>
    refine ⟨h1, h2, by simpa [curCall] using h3, h4, ?_, ?_⟩
    · cases hpc0 : (s.callers 0).pc <;> simp_all [flightOK, Loop.held, app_single]
      obtain ⟨⟨-, rfl⟩, -⟩ := h5
      simp
    · cases hpc0 : (s.callers 0).pc <;> simp_all [flightOK, Loop.held, accepted, pendingItem, app_single]
      obtain ⟨⟨-, rfl⟩, -⟩ := h5
      simp
  | write p hl hlen =>
    refine ⟨h1, h2, by simpa [curCall] using h3, h4, ?_, ?_⟩
    · cases hpc0 : (s.callers 0).pc <;> simp_all [flightOK, Loop.held, app_single]
    · cases hpc0 : (s.callers 0).pc <;> simp_all [flightOK, Loop.held, accepted, pendingItem, app_single]
      rw [← List.append_assoc, h6]
  | ok p hl hch =>
    refine ⟨h1, h2, by simpa [curCall] using h3, h4, ?_, ?_⟩
    · cases hpc0 : (s.callers 0).pc <;> simp_all [flightOK, Loop.held, app_single]
      obtain ⟨⟨-, rfl⟩, -⟩ := h5
      simp
    · cases hpc0 : (s.callers 0).pc <;> simp_all [flightOK, Loop.held, accepted, pendingItem, app_single]
      obtain ⟨⟨-, rfl⟩, -⟩ := h5
      simp
  | drainMore hl hq =>
    refine ⟨h1, h2, by simpa [curCall] using h3, h4, ?_, ?_⟩
    · cases hpc0 : (s.callers 0).pc <;> simp_all [flightOK, Loop.held, app_single]
    · cases hpc0 : (s.callers 0).pc <;> simp_all [flightOK, Loop.held, accepted, pendingItem, app_single]
  | drainEnd hl hq =>
    refine ⟨h1, h2, by simpa [curCall] using h3, h4, ?_, ?_⟩
    · cases hpc0 : (s.callers 0).pc <;> simp_all [flightOK, Loop.held, app_single]
    · cases hpc0 : (s.callers 0).pc <;> simp_all [flightOK, Loop.held, accepted, pendingItem, app_single]
  | drainRecv p rest hl hq =>
    refine ⟨h1, h2, by simpa [curCall] using h3, h4, ?_, ?_⟩
    · cases hpc0 : (s.callers 0).pc <;> simp_all [flightOK, Loop.held, app_single]
    · cases hpc0 : (s.callers 0).pc <;> simp_all [flightOK, Loop.held, accepted, pendingItem, app_single]
  | drainReply p hl hch =>
    refine ⟨h1, h2, by simpa [curCall] using h3, h4, ?_, ?_⟩
    · cases hpc0 : (s.callers 0).pc <;> simp_all [flightOK, Loop.held, app_single]
      obtain ⟨⟨-, rfl⟩, -⟩ := h5
      simp
    · cases hpc0 : (s.callers 0).pc <;> simp_all [flightOK, Loop.held, accepted, pendingItem, app_single]
      obtain ⟨⟨-, rfl⟩, -⟩ := h5
      simp
  | close hl =>
    refine ⟨h1, h2, by simpa [curCall] using h3, h4, ?_, ?_⟩
    · cases hpc0 : (s.callers 0).pc <;> simp_all [flightOK, Loop.held, app_single]
    · cases hpc0 : (s.callers 0).pc <;> simp_all [flightOK, Loop.held, accepted, pendingItem, app_single]
  | consume x rest hc =>
    refine ⟨h1, h2, by simpa [curCall] using h3, h4, ?_, ?_⟩
    · cases hpc0 : (s.callers 0).pc <;> simp_all [flightOK, Loop.held, app_single]
    · cases hpc0 : (s.callers 0).pc <;> simp_all [flightOK, Loop.held, accepted, pendingItem, app_single]
  | handoff p hc hl h0 =>
    refine ⟨h1, h2, by simpa [curCall] using h3, h4, ?_, ?_⟩
    · cases hpc0 : (s.callers 0).pc <;> simp_all [flightOK, Loop.held, app_single]
    · cases hpc0 : (s.callers 0).pc <;> simp_all [flightOK, Loop.held, accepted, pendingItem, app_single]
  | cancel =>
    refine ⟨h1, h2, by simpa [curCall] using h3, h4, ?_, ?_⟩
    · cases hpc0 : (s.callers 0).pc <;> simp_all [flightOK, Loop.held, app_single]
    · cases hpc0 : (s.callers 0).pc <;> simp_all [flightOK, Loop.held, accepted, pendingItem, app_single]
  | sendPanic i p hpc hcl =>
    have hi0 : i = 0 := by
      by_contra hne
      simp [(h2 i hne).2] at hpc
    subst hi0
    simp only [flightOK, hpc] at h5
    refine ⟨h1, ?_, ?_, ?_, ?_, ?_⟩
    · intro j hj
      simp only [Function.update_noteq hj]
      exact h2 j hj
    · simp only [curCall, hpc] at h3 ⊢
      simpa [retOf, callOf] using h3
    · intro r hr
      simp only [List.mem_append, List.mem_singleton] at hr
      rcases hr with hr | hr
      · exact h4 r hr
      · subst hr
        rfl
    · simp [flightOK, h5]
    · simp only [accepted, pendingItem, hpc] at h6 ⊢
      simpa [retOf, List.filter_append] using h6
  | sendOk i p hpc hcl hl =>
    have hi0 : i = 0 := by
      by_contra hne
      simp [(h2 i hne).2] at hpc
    subst hi0
    simp only [flightOK, hpc] at h5
    refine ⟨h1, ?_, ?_, h4, ?_, ?_⟩
    · intro j hj
      simp only [Function.update_noteq hj]
      exact h2 j hj
    · simp only [curCall, hpc] at h3 ⊢
      simpa using h3
    · simp [flightOK, h5]
    · simp only [accepted, pendingItem, hpc] at h6 ⊢
      simpa [h5] using h6
  | recv i p e hpc hch =>
    have hi0 : i = 0 := by
      by_contra hne
      simp [(h2 i hne).2] at hpc
    subst hi0
    simp only [flightOK, hpc, hch] at h5
    simp only [reduceCtorEq, and_false, false_or] at h5
    refine ⟨h1, ?_, ?_, ?_, ?_, ?_⟩
    · intro j hj
      simp only [Function.update_noteq hj]
      exact h2 j hj
    · simp only [curCall, hpc] at h3 ⊢
      simpa [retOf, callOf] using h3
    · intro r hr
      simp only [List.mem_append, List.mem_singleton] at hr
      rcases hr with hr | hr
      · exact h4 r hr
      · subst hr
        rfl
    · simp [flightOK, h5]
    · have hokE : (match s.loop with
          | Loop.ok q => [q.t]
          | _ => ([] : List T)) = [] := by
        cases hloop : s.loop <;> simp_all [Loop.held]
      simp only [accepted, pendingItem, hpc, hch, hokE, List.nil_append] at h6 ⊢
      cases e with
      | none =>
        simp only [if_true] at h6
        simp [List.filter_append, h6, retOf_err, retOf_item]
      | some e =>
        simp at h6
        simp [List.filter_append, h6, retOf_err]

theorem sinv_exec {T : Type} (capacity : Nat) (calls : List (Call T)) (tr : List Action) :
    SInv capacity calls (exec tr (NewChanMgr capacity (single calls))) :=
  exec_induct (SInv capacity calls) (fun _ _ hi h => sinv_trans hi h) tr _
    (sinv_init capacity calls)

/-! ## No cancellation, no consumer -/

theorem received_trans {T : Type} {s s' : Sys T} (h : Trans s s')
    (hr : s'.received = []) : s.received = [] := by
  cases h <;> simp_all

theorem ctxDone_trans {T : Type} {s s' : Sys T} (h : Trans s s')
    (hd : s'.ctxDone = false) : s.ctxDone = false := by
  cases h <;> simp_all

theorem accepted_length_le {T : Type} (s : Sys T) : (accepted s).length ≤ s.returned.length := by
  simp only [accepted, List.length_map]
  exact List.length_filter_le _ _

theorem cinv_trans {T : Type} {capacity : Nat} {calls : List (Call T)} {s s' : Sys T}
    (hfit : calls.length ≤ capacity)
    (hi : CInv capacity calls s) (h : Trans s s') : CInv capacity calls s' := by
  refine ⟨inv_trans hi.inv h, sinv_trans hi.sinv h, ?_⟩
  intro hr hd
  obtain ⟨ha, hb, hc⟩ := hi.clean (received_trans h hr) (ctxDone_trans h hd)
  have hnd : s.loop.exiting = false := by
    cases hx : s.loop.exiting
    · rfl
    · have := hi.inv.exitDone hx
      rw [ctxDone_trans h hd] at this
      cases this
  have hex := hi.inv.exitDone
  have hcl := hi.inv.closedDone
  cases h with
  | call i k rest hpc htodo =>
    refine ⟨ha, ?_, hc⟩
    intro j e hj
    by_cases hjn : j = s.next
    · subst hjn
      simp at hj
    · simp only [Function.update_noteq hjn] at hj
      exact hb j e hj
  | sendPanic i p hpc hcl' =>
    have := hcl hcl'
    simp [this, Loop.exiting] at hnd
  | sendOk i p hpc hcl' hl => exact ⟨ha, hb, hc⟩
  | recv i p e hpc hch =>
    refine ⟨?_, ?_, hc⟩
    · intro r hr'
      simp only [List.mem_append, List.mem_singleton] at hr'
      rcases hr' with hr' | hr'
      · exact ha r hr'
      · subst hr'
        exact hb _ _ hch
    · intro j e' hj
      by_cases hjn : j = p.c
      · subst hjn
        simp at hj
      · simp only [Function.update_noteq hjn] at hj
        exact hb j e' hj
  | selDone hl hd' => simp [hd'] at hd
  | selRecv p rest hl hq => exact ⟨ha, hb, by simp⟩
  | gotFull p hl hb' hlen =>
    exfalso
    have hs := hi.sinv
    have hfl := hs.flight
    have hfifo := hs.fifo
    have hscript := hs.script
    have hrec := received_trans (Trans.gotFull s p hl hb' hlen) hr
    cases hpc0 : (s.callers 0).pc with
    | idle => simp [flightOK, hpc0, hl, Loop.held] at hfl
    | sending q => simp [flightOK, hpc0, hl, Loop.held] at hfl
    | waiting q =>
      simp only [flightOK, hpc0, hl, Loop.held] at hfl
      simp at hfl
      have hpend : pendingItem s = [] := by
        simp [pendingItem, hl, hpc0, hfl.2]
      rw [hrec, hpend] at hfifo
      simp only [List.nil_append, List.append_nil] at hfifo
      have h1 := accepted_length_le s
      rw [← hfifo] at h1
      have h2 := congrArg List.length hscript
      simp only [curCall, hpc0, List.length_append, List.length_map, List.length_singleton] at h2
      have h3 := hs.capEq
      omega
  | gotWrite p hl hb' => exact ⟨ha, hb, by simp⟩
  | full p hl hch => exact absurd hl (hc p)
  | write p hl hlen => exact ⟨ha, hb, by simp⟩
  | ok p hl hch =>
    refine ⟨ha, ?_, by simp⟩
    intro j e hj
    by_cases hjn : j = p.c
    · subst hjn
      simp at hj
      exact hj.symm
    · simp only [Function.update_noteq hjn] at hj
      exact hb j e hj
  | drainMore hl hq => simp [hl, Loop.exiting] at hnd
  | drainEnd hl hq => simp [hl, Loop.exiting] at hnd
  | drainRecv p rest hl hq => simp [hl, Loop.exiting] at hnd
  | drainReply p hl hch => simp [hl, Loop.exiting] at hnd
  | close hl => simp [hl, Loop.exiting] at hnd
  | consume x rest hc' => simp at hr
  | handoff p hc' hl h0 => simp at hr
  | cancel => simp at hd

theorem cinv_exec {T : Type} (capacity : Nat) (calls : List (Call T))
    (hfit : calls.length ≤ capacity) (tr : List Action) :
    CInv capacity calls (exec tr (NewChanMgr capacity (single calls))) := by
  refine exec_induct (CInv capacity calls) (fun _ _ hi h => cinv_trans hfit hi h) tr _ ?_
  refine ⟨inv_init _ _, sinv_init _ _, ?_⟩
  intro _ _
  simp [NewChanMgr]

/-! ## The schedule of a sequential caller -/

theorem run_append {T : Type} (as bs : List Action) (s : Sys T) :
    run (as ++ bs) s = (run as s).bind (run bs) := by
  induction as generalizing s with
  | nil => simp [run]
  | cons a as ih =>
    simp only [List.cons_append, run]
    cases h : step a s with
    | none => simp
    | some s1 => simp [ih]

theorem exec_of_run {T : Type} (tr : List Action) (s s' : Sys T) (h : run tr s = some s') :
    exec tr s = s' := by
  induction tr generalizing s with
  | nil =>
    simp only [run, Option.some.injEq] at h
    simpa [exec] using h
  | cons a as ih =>
    simp only [run] at h
    cases hs : step a s with
    | none => simp [hs] at h
    | some s1 =>
      simp only [hs, Option.some_bind] at h
      simp only [exec, hs, Option.getD_some]
      exact ih s1 h

theorem oneCall_run {T : Type} (s : Sys T) (k : Call T) (rest : List (Call T))
    (hpc : (s.callers 0).pc = .idle) (htodo : (s.callers 0).todo = k :: rest)
    (hl : s.m.l = []) (hloop : s.loop = .sel) (hcl : s.m.lClosed = false)
    (hlen : s.m.c.length < s.m.capC) :
    run oneCall s = some (exec oneCall s) ∧ (exec oneCall s).m.c = s.m.c ++ [k.item] ∧
      (exec oneCall s).m.l = [] ∧
      (exec oneCall s).loop = .sel ∧ (exec oneCall s).m.lClosed = false ∧
      (exec oneCall s).m.capC = s.m.capC ∧
      ((exec oneCall s).callers 0).pc = .idle ∧ ((exec oneCall s).callers 0).todo = rest ∧
      (exec oneCall s).returned = s.returned ++ [{ caller := 0, call := k, err := none }] ∧
      (exec oneCall s).received = s.received ∧ (exec oneCall s).ctxDone = s.ctxDone := by
  have hne : ¬ (s.m.c.length = s.m.capC) := by omega
  simp [oneCall, run, exec, step, submitPayload.build, submitPayload.send, NewChanMgr.goroutine, submitPayload.recv, hpc, htodo, hl, hloop,
    hcl, hlen, hne, retOf, callOf_mk]

theorem schedule_run {T : Type} (calls : List (Call T)) :
    ∀ s : Sys T, (s.callers 0).pc = .idle → (s.callers 0).todo = calls → s.m.l = [] →
      s.loop = .sel → s.m.lClosed = false → s.m.c.length + calls.length ≤ s.m.capC →
      run (schedule calls.length) s = some (exec (schedule calls.length) s) ∧
      (exec (schedule calls.length) s).m.c = s.m.c ++ calls.map (fun k => k.item) ∧
      (exec (schedule calls.length) s).returned =
        s.returned ++ calls.map (fun k => { caller := 0, call := k, err := none }) ∧
      (exec (schedule calls.length) s).received = s.received ∧
      (exec (schedule calls.length) s).ctxDone = s.ctxDone := by
  induction calls with
  | nil =>
    intro s _ _ _ _ _ _
    simp [schedule, run, exec]
  | cons k rest ih =>
    intro s hpc htodo hl hloop hcl hlen
    simp only [List.length_cons] at hlen
    obtain ⟨h0, h1, h2, h3, h4, h5, h6, h7, h8, h9, h10⟩ :=
      oneCall_run s k rest hpc htodo hl hloop hcl (by omega)
    have hlen' : (exec oneCall s).m.c.length + rest.length ≤ (exec oneCall s).m.capC := by
      rw [h1, h5]
      simp only [List.length_append, List.length_singleton]
      omega
    obtain ⟨g0, g1, g2, g3, g4⟩ := ih (exec oneCall s) h6 h7 h2 h3 h4 hlen'
    have hrun : run (schedule (k :: rest).length) s =
        some (exec (schedule rest.length) (exec oneCall s)) := by
      simp only [List.length_cons, schedule, run_append, h0, Option.some_bind, g0]
    have hexec := exec_of_run _ _ _ hrun
    rw [hexec]
    refine ⟨hrun, ?_, ?_, ?_, ?_⟩
    · rw [g1, h1]
      simp
    · rw [g2, h8]
      simp
    · rw [g3, h9]
    · rw [g4, h10]

theorem consume_run {T : Type} (xs : List T) :
    ∀ s : Sys T, GetChan s.m = xs →
      run (List.replicate xs.length Action.consume) s =
        some (exec (List.replicate xs.length Action.consume) s) ∧
      (exec (List.replicate xs.length Action.consume) s).received = s.received ++ xs ∧
      GetChan (exec (List.replicate xs.length Action.consume) s).m = [] := by
  induction xs with
  | nil =>
    intro s hs
    simp [run, exec, hs]
  | cons x rest ih =>
    intro s hs
    have hstep : step Action.consume s =
        some { s with m := { s.m with c := rest }, received := s.received ++ [x] } := by
      simp only [step, consumeStep, hs]
    obtain ⟨g0, g1, g2⟩ := ih { s with m := { s.m with c := rest }, received := s.received ++ [x] }
      rfl
    simp only [List.length_cons, List.replicate_succ, run, exec, hstep, Option.some_bind,
      Option.getD_some]
    refine ⟨g0, ?_, g2⟩
    rw [g1]
    simp

/-! ## The last item written -/

theorem okLast_trans {T : Type} {s s' : Sys T} (h : Trans s s')
    (hi : ∀ p, s.loop = .ok p → (s.received ++ s.m.c).getLast? = some p.t) :
    ∀ p, s'.loop = .ok p → (s'.received ++ s'.m.c).getLast? = some p.t := by
  cases h with
  | write p hl hlen =>
    intro q hq
    simp only [Loop.ok.injEq] at hq
    subst hq
    simp [← List.append_assoc]
  | handoff p hc hl h0 =>
    intro q hq
    simp only [Loop.ok.injEq] at hq
    subst hq
    simp [hc]
  | consume x rest hc =>
    intro q hq
    have := hi q hq
    simpa [hc] using this
  | _ => simp_all

theorem okLast_exec {T : Type} (capacity : Nat) (scripts : Nat → List (Call T))
    (tr : List Action) :
    ∀ p, (exec tr (NewChanMgr capacity scripts)).loop = .ok p →
      ((exec tr (NewChanMgr capacity scripts)).received ++
        (exec tr (NewChanMgr capacity scripts)).m.c).getLast? = some p.t :=
  exec_induct (fun s => ∀ p, s.loop = .ok p → (s.received ++ s.m.c).getLast? = some p.t)
    (fun _ _ hi h => okLast_trans h hi) tr _ (by simp [NewChanMgr])

theorem capC_trans {T : Type} {s s' : Sys T} (h : Trans s s') : s'.m.capC = s.m.capC := by
  cases h <;> rfl

theorem capC_exec {T : Type} (tr : List Action) (s : Sys T) : (exec tr s).m.capC = s.m.capC :=
  exec_induct (fun s' => s'.m.capC = s.m.capC) (fun _ _ hi h => (capC_trans h).trans hi) tr s rfl

/-! ## After the goroutine has seen the cancellation -/

theorem after_trans {T : Type} {s0 s s' : Sys T} (hi : After s0 s) (h : Trans s s') :
    After s0 s' := by
  obtain ⟨h1, ⟨pre, h2⟩, ⟨new, h3, h3'⟩, h4⟩ := hi
  refine ⟨exiting_trans h h1, ?_, ?_, ?_⟩
  · cases h with
    | write p hl hlen => simp [hl, Loop.exiting] at h1
    | consume x rest hc => exact ⟨pre ++ [x], by simp [h2, hc]⟩
    | _ => exact ⟨pre, h2⟩
  · cases h with
    | sendPanic i p hpc hcl =>
      refine ⟨new ++ [retOf i p (some .ErrInvalidChanMgr)], by simp [h3], ?_⟩
      intro r hr hidle
      simp only [List.mem_append, List.mem_singleton] at hr
      rcases hr with hr | hr
      · exact h3' r hr hidle
      · subst hr
        rfl
    | recv i p e hpc hch =>
      refine ⟨new ++ [retOf i p e], by simp [h3], ?_⟩
      intro r hr hidle
      simp only [List.mem_append, List.mem_singleton] at hr
      rcases hr with hr | hr
      · exact h3' r hr hidle
      · subst hr
        have := h4 i p hidle (Or.inr hpc)
        rw [hch] at this
        simpa [retOf] using this
    | _ => exact ⟨new, h3, h3'⟩
  · cases h with
    | call i k rest hpc htodo =>
      intro j q hidle hq
      by_cases hc : q.c = s.next
      · left
        rw [hc]
        simp
      · simp only [Function.update_noteq hc]
        by_cases hji : j = i
        · subst hji
          simp only [Function.update_same] at hq
          rcases hq with hq | hq
          · simp only [CallPC.sending.injEq] at hq
            subst hq
            exact absurd rfl hc
          · cases hq
        · simp only [Function.update_noteq hji] at hq
          exact h4 j q hidle hq
    | sendPanic i p hpc hcl =>
      intro j q hidle hq
      by_cases hji : j = i
      · subst hji
        simp only [Function.update_same] at hq
        rcases hq with hq | hq <;> cases hq
      · simp only [Function.update_noteq hji] at hq
        exact h4 j q hidle hq
    | sendOk i p hpc hcl hl =>
      intro j q hidle hq
      by_cases hji : j = i
      · subst hji
        simp only [Function.update_same] at hq
        rcases hq with hq | hq
        · cases hq
        · simp only [CallPC.waiting.injEq] at hq
          subst hq
          exact h4 j p hidle (Or.inl hpc)
      · simp only [Function.update_noteq hji] at hq
        exact h4 j q hidle hq
    | recv i p e hpc hch =>
      intro j q hidle hq
      by_cases hc : q.c = p.c
      · left
        rw [hc]
        simp
      · simp only [Function.update_noteq hc]
        by_cases hji : j = i
        · subst hji
          simp only [Function.update_same] at hq
          rcases hq with hq | hq <;> cases hq
        · simp only [Function.update_noteq hji] at hq
          exact h4 j q hidle hq
    | full p hl hch => simp [hl, Loop.exiting] at h1
    | ok p hl hch => simp [hl, Loop.exiting] at h1
    | drainReply p hl hch =>
      intro j q hidle hq
      by_cases hc : q.c = p.c
      · right
        rw [hc]
        simp
      · simp only [Function.update_noteq hc]
        exact h4 j q hidle hq
    | _ => exact h4

theorem after_exec {T : Type} (s0 : Sys T) (h0 : s0.loop.exiting = true) (tr : List Action) :
    After s0 (exec tr s0) := by
  refine exec_induct (After s0) (fun _ _ hi h => after_trans hi h) tr s0 ?_
  refine ⟨h0, ⟨[], rfl⟩, ⟨[], by simp, by simp⟩, ?_⟩
  intro i p hidle hq
  rw [hidle] at hq
  rcases hq with hq | hq <;> cases hq

theorem exec_append {T : Type} (as bs : List Action) (s : Sys T) :
    exec (as ++ bs) s = exec bs (exec as s) := by
  induction as generalizing s with
  | nil => rfl
  | cons a as ih => exact ih ((step a s).getD s)

/-! ## Consequences used by the claims -/

theorem run_eq_exec {T : Type} (tr : List Action) (s : Sys T)
    (h : (run tr s).isSome = true) : run tr s = some (exec tr s) := by
  induction tr generalizing s with
  | nil => rfl
  | cons a as ih =>
    simp only [run] at h ⊢
    cases hs : step a s with
    | none => simp [hs] at h
    | some s1 =>
      simp only [hs, Option.some_bind] at h ⊢
      simp only [exec, hs, Option.getD_some]
      exact ih s1 h

theorem pending_idle {T : Type} (s : Sys T) (hf : flightOK s)
    (hpc : (s.callers 0).pc = .idle) : pendingItem s = [] := by
  simp only [flightOK, hpc] at hf
  cases hl : s.loop <;> simp_all [pendingItem, Loop.held]

theorem errsOf_single {T : Type} (s : Sys T) (h : ∀ r ∈ s.returned, r.caller = 0) :
    s.errsOf 0 = s.returned.map (fun r => r.err) := by
  simp only [Sys.errsOf]
  congr 1
  exact List.filter_eq_self.mpr (fun r hr => by simp [h r hr])

theorem sinv_finished {T : Type} {capacity : Nat} {calls : List (Call T)} {s : Sys T}
    (hs : SInv capacity calls s) (hlen : s.returned.length = calls.length) :
    s.returned.map (fun r => r.call) = calls ∧ s.received ++ s.m.c = accepted s := by
  have h3 := hs.script
  have hl := congrArg List.length h3
  simp only [List.length_append, List.length_map] at hl
  have hcur : (curCall s).length = 0 := by omega
  have htodo : (s.callers 0).todo.length = 0 := by omega
  have hpc : (s.callers 0).pc = .idle := by
    cases hp : (s.callers 0).pc <;> simp [curCall, hp] at hcur
    rfl
  rw [List.length_eq_zero] at hcur htodo
  rw [hcur, htodo] at h3
  refine ⟨by simpa using h3, ?_⟩
  rw [hs.fifo, pending_idle s hs.flight hpc]
  simp

theorem accepted_all_nil {T : Type} (s : Sys T) (h : ∀ r ∈ s.returned, r.err = none) :
    accepted s = (s.returned.map (fun r => r.call)).map (fun k => k.item) := by
  simp only [accepted, List.map_map]
  congr 1
  exact List.filter_eq_self.mpr (fun r hr => by simp [h r hr])

/-! ## The claims -/

/-- C1: when the goroutine, not exiting, services a non-blocking request `p`
that it finds in `l`, it replies `ErrChanIsFull` exactly when `len(c) == cap(c)`
at that moment and then leaves `c` as it is; otherwise it appends `p.t` to `c`
and replies nil.  In both cases it is back at the `select` afterwards. -/
theorem C1_nonblocking_reply {T : Type} (s : Sys T) (p : payload T) (rest : List (payload T))
    (hloop : s.loop = .sel) (hq : s.m.l = p :: rest) (hb : p.blockable = false)
    (hch : s.chans p.c = none) (hcap : s.m.c.length ≤ s.m.capC) :
    run (serve (s.m.c.length == s.m.capC)) s =
        some (exec (serve (s.m.c.length == s.m.capC)) s) ∧
      (exec (serve (s.m.c.length == s.m.capC)) s).loop = .sel ∧
      (exec (serve (s.m.c.length == s.m.capC)) s).m.l = rest ∧
      ((exec (serve (s.m.c.length == s.m.capC)) s).chans p.c = some (some .ErrChanIsFull) ↔
        s.m.c.length = s.m.capC) ∧
      (exec (serve (s.m.c.length == s.m.capC)) s).chans p.c =
        some (if s.m.c.length = s.m.capC then some .ErrChanIsFull else none) ∧
      GetChan (exec (serve (s.m.c.length == s.m.capC)) s).m =
        (if s.m.c.length = s.m.capC then GetChan s.m else GetChan s.m ++ [p.t]) := by
  by_cases h : s.m.c.length = s.m.capC
  · simp [serve, h, run, exec, step, NewChanMgr.goroutine, hloop, hq, hb, hch, GetChan]
  · have hlt : s.m.c.length < s.m.capC := by omega
    simp [serve, h, run, exec, step, NewChanMgr.goroutine, hloop, hq, hb, hch, GetChan, hlt]

/-- Instance of C1: with room in `c`, `AddNoBlocking(7)` is written and answered nil. -/
theorem C1_nonblocking_reply_witness :
    c1State.loop = .sel ∧ c1State.m.l = [{ blockable := false, t := 7, c := 0 }] ∧
      c1State.chans 0 = none ∧ c1State.m.c.length ≤ c1State.m.capC ∧
      (exec (serve false) c1State).chans 0 = some none ∧
      GetChan (exec (serve false) c1State).m = [7] := by
  have h := C1_nonblocking_reply c1State { blockable := false, t := 7, c := 0 } []
    (by decide) (by decide) rfl (by decide) (by decide)
  exact ⟨by decide, by decide, by decide, by decide, h.2.2.2.2.1, h.2.2.2.2.2⟩

/-- C2: a fresh manager of capacity `capacity` and a single caller that submits
the `calls` (each an `Add` or an `AddNoBlocking`), at most `capacity` of them,
one after the other.  In every schedule `tr` in which the context has not been
cancelled and no consumer has received, every call that has returned has
returned nil, and once all have returned `c` holds exactly their items in
submission order.  The calls do all return: the schedule `schedule` runs
them to the end without any goroutine being blocked, and as many receives from
`GetChan()` then yield the items first-in first-out. -/
theorem C2_fill_in_order {T : Type} (capacity : Nat) (calls : List (Call T))
    (tr : List Action) (hfit : calls.length ≤ capacity)
    (hctx : (exec tr (NewChanMgr capacity (single calls))).ctxDone = false)
    (hrecv : (exec tr (NewChanMgr capacity (single calls))).received = []) :
    ((∀ r ∈ (exec tr (NewChanMgr capacity (single calls))).returned, r.err = none) ∧
      ((exec tr (NewChanMgr capacity (single calls))).returned.length = calls.length →
        GetChan (exec tr (NewChanMgr capacity (single calls))).m =
          calls.map (fun k => k.item))) ∧
    (run (schedule calls.length) (NewChanMgr capacity (single calls)) =
        some (exec (schedule calls.length) (NewChanMgr capacity (single calls))) ∧
      (exec (schedule calls.length) (NewChanMgr capacity (single calls))).returned =
        calls.map (fun k => { caller := 0, call := k, err := none }) ∧
      GetChan (exec (schedule calls.length) (NewChanMgr capacity (single calls))).m =
        calls.map (fun k => k.item)) ∧
    (run (List.replicate calls.length Action.consume)
        (exec (schedule calls.length) (NewChanMgr capacity (single calls))) =
        some (exec (List.replicate calls.length Action.consume)
          (exec (schedule calls.length) (NewChanMgr capacity (single calls)))) ∧
      (exec (List.replicate calls.length Action.consume)
        (exec (schedule calls.length) (NewChanMgr capacity (single calls)))).received =
        calls.map (fun k => k.item)) := by
  have hc := cinv_exec capacity calls hfit tr
  obtain ⟨hnil, -, -⟩ := hc.clean hrecv hctx
  obtain ⟨g0, g1, g2, g3, -⟩ := schedule_run calls (NewChanMgr capacity (single calls))
    rfl (by simp [NewChanMgr, single]) rfl rfl rfl (by simpa [NewChanMgr] using hfit)
  refine ⟨⟨hnil, ?_⟩, ⟨g0, by simpa [NewChanMgr] using g2, by simpa [NewChanMgr, GetChan] using g1⟩,
    ?_⟩
  · intro hlen
    obtain ⟨h1, h2⟩ := sinv_finished hc.sinv hlen
    rw [hrecv, accepted_all_nil _ hnil, h1] at h2
    simpa [GetChan] using h2
  · have hq : GetChan (exec (schedule calls.length) (NewChanMgr capacity (single calls))).m =
        calls.map (fun k => k.item) := by simpa [NewChanMgr, GetChan] using g1
    have hk := consume_run (calls.map (fun k => k.item)) _ hq
    simp only [List.length_map] at hk
    refine ⟨hk.1, ?_⟩
    rw [hk.2.1, g3]
    simp [NewChanMgr]

/-- Instance of C2: capacity 2, `Add(1)` then `AddNoBlocking(2)` leave `c = [1, 2]`. -/
theorem C2_fill_in_order_witness :
    [Call.Add 1, Call.AddNoBlocking 2].length ≤ 2 ∧
      (exec (schedule 2) (NewChanMgr 2 (single [Call.Add 1, Call.AddNoBlocking 2]))).ctxDone =
        false ∧
      (exec (schedule 2) (NewChanMgr 2 (single [Call.Add 1, Call.AddNoBlocking 2]))).received =
        [] ∧
      (exec (schedule 2) (NewChanMgr 2 (single [Call.Add 1, Call.AddNoBlocking 2]))).returned.length
        = 2 ∧
      GetChan (exec (schedule 2) (NewChanMgr 2 (single [Call.Add 1, Call.AddNoBlocking 2]))).m =
        [1, 2] :=
  ⟨by decide, by decide, by decide, by decide,
    (C2_fill_in_order 2 [Call.Add 1, Call.AddNoBlocking 2] (schedule 2) (by decide) (by decide)
      (by decide)).1.2 (by decide)⟩

/-- C3: servicing a request that is answered with an error leaves `c` as it
was.  From the `select` with a non-blocking request on a full `c`, and from the
draining loop with any request in `l`, the three steps receive, (test,) reply
put `ErrChanIsFull`, respectively `ErrInvalidChanMgr`, into the reply channel
and do not touch `c`; and no single step of the goroutine that puts an error
into a reply channel changes `c`.  In the scenario capacity 1, `Add(1)` then
`AddNoBlocking(2)`: whenever the two calls have returned nil and
`ErrChanIsFull`, the items received and still queued are exactly `[1]`, and in
the schedule `rejectSchedule` that is what they return, with `c = [1]`. -/
theorem C3_error_leaves_queue {T : Type} (s : Sys T) (p : payload T) (rest : List (payload T))
    (hq : s.m.l = p :: rest) (hch : s.chans p.c = none)
    (hcase : (s.loop = .sel ∧ p.blockable = false ∧ s.m.c.length = s.m.capC) ∨
      s.loop = .drain) :
    (run [.loop false, .loop false, .loop false] s =
        some (exec [.loop false, .loop false, .loop false] s) ∧
      (exec [.loop false, .loop false, .loop false] s).chans p.c =
        some (some (if s.loop.exiting then .ErrInvalidChanMgr else .ErrChanIsFull)) ∧
      GetChan (exec [.loop false, .loop false, .loop false] s).m = GetChan s.m ∧
      (exec [.loop false, .loop false, .loop false] s).m.l = rest) ∧
    (∀ (s1 s2 : Sys T) (b : Bool) (k : Nat) (e : ChanErr), NewChanMgr.goroutine b s1 = some s2 →
      s1.chans k = none → s2.chans k = some (some e) → GetChan s2.m = GetChan s1.m) ∧
    (∀ tr : List Action, (exec tr rejectInit).errsOf 0 = [none, some .ErrChanIsFull] →
      (exec tr rejectInit).received ++ GetChan (exec tr rejectInit).m = [1]) ∧
    (run rejectSchedule rejectInit = some (exec rejectSchedule rejectInit) ∧
      (exec rejectSchedule rejectInit).errsOf 0 = [none, some .ErrChanIsFull] ∧
      (exec rejectSchedule rejectInit).received = [] ∧
      GetChan (exec rejectSchedule rejectInit).m = [1]) := by
  refine ⟨?_, ?_, ?_, ?_⟩
  · rcases hcase with ⟨hl, hb, hlen⟩ | hl
    · simp [run, exec, step, NewChanMgr.goroutine, hl, hq, hb, hlen, hch, GetChan, Loop.exiting]
    · simp [run, exec, step, NewChanMgr.goroutine, hl, hq, hch, GetChan, Loop.exiting]
  · intro s1 s2 b k e hstep h1 h2
    have ht := trans_of_loopStep hstep
    cases ht with
    | write q hl hlen => simp [h1] at h2
    | consume x rest' hc => simp [h1] at h2
    | _ => rfl
  · intro tr herr
    have hs := sinv_exec 1 [Call.Add 1, Call.AddNoBlocking 2] tr
    change SInv 1 [Call.Add 1, Call.AddNoBlocking 2] (exec tr rejectInit) at hs
    rw [errsOf_single _ hs.byZero] at herr
    have hlen : (exec tr rejectInit).returned.length = 2 := by
      have := congrArg List.length herr
      simpa using this
    obtain ⟨h1, h2⟩ := sinv_finished hs hlen
    obtain ⟨r1, r2, hr⟩ := List.length_eq_two.mp hlen
    rw [hr] at herr h1
    simp only [List.map_cons, List.map_nil, List.cons.injEq, and_true] at herr h1
    simp only [GetChan, h2, accepted, hr]
    simp [List.filter_cons, herr.1, herr.2, h1.1, Call.item]
  · refine ⟨run_eq_exec _ _ (by decide), by decide, by decide, by decide⟩

/-- Instance of C3: on the full `c = [1]` the request `AddNoBlocking(2)` is answered `ErrChanIsFull` and `c` is still `[1]`. -/
theorem C3_error_leaves_queue_witness :
    c3State.m.l = [{ blockable := false, t := 2, c := 1 }] ∧ c3State.chans 1 = none ∧
      (c3State.loop = .sel ∧ c3State.m.c.length = c3State.m.capC) ∧
      (exec [.loop false, .loop false, .loop false] c3State).chans 1 =
        some (some .ErrChanIsFull) ∧
      GetChan (exec [.loop false, .loop false, .loop false] c3State).m = [1] := by
  have h := (C3_error_leaves_queue c3State { blockable := false, t := 2, c := 1 } []
    (by decide) (by decide) (Or.inl ⟨by decide, rfl, by decide⟩)).1
  exact ⟨by decide, by decide, ⟨by decide, by decide⟩, h.2.1, h.2.2.1⟩

/-- C4: in every state reachable from a fresh manager, whatever the goroutine
is doing (not exiting, draining, or `l` closed), a call of `Add` that has
returned has returned nil or `ErrInvalidChanMgr`, never `ErrChanIsFull`. -/
theorem C4_add_never_full {T : Type} (capacity : Nat) (scripts : Nat → List (Call T))
    (tr : List Action) (r : Ret T) (t : T)
    (hr : r ∈ (exec tr (NewChanMgr capacity scripts)).returned) (hcall : r.call = Call.Add t) :
    (r.err = none ∨ r.err = some .ErrInvalidChanMgr) ∧ r.err ≠ some .ErrChanIsFull := by
  have h := (inv_exec capacity scripts tr).retOK r hr (by simp [hcall, Call.blockable])
  refine ⟨?_, h⟩
  cases he : r.err with
  | none => exact Or.inl rfl
  | some e =>
    cases e with
    | ErrChanIsFull => exact absurd he h
    | ErrInvalidChanMgr => exact Or.inr rfl

/-- Instance of C4: an accepted `Add(1)` has returned nil. -/
theorem C4_add_never_full_witness :
    ({ caller := 0, call := Call.Add 1, err := none } : Ret Nat) ∈
        (exec c4Schedule (NewChanMgr 1 (single [Call.Add 1]))).returned ∧
      ((none : Option ChanErr) = none ∨ (none : Option ChanErr) = some .ErrInvalidChanMgr) ∧
      (none : Option ChanErr) ≠ some .ErrChanIsFull :=
  ⟨by decide,
    C4_add_never_full 1 (single [Call.Add 1]) c4Schedule
      { caller := 0, call := Call.Add 1, err := none } 1 (by decide) rfl⟩

/-- C5: when `l` is closed, a caller that enters `Add` or `AddNoBlocking` and
executes the send is not blocked and does not panic: the call returns
`ErrInvalidChanMgr`, and the manager, in particular `c`, is as before. -/
theorem C5_closed_returns_invalid {T : Type} (s : Sys T) (i : Nat) (k : Call T)
    (rest : List (Call T)) (hcl : s.m.lClosed = true) (hpc : (s.callers i).pc = .idle)
    (htodo : (s.callers i).todo = k :: rest) :
    run [.call i, .send i] s = some (exec [.call i, .send i] s) ∧
      (exec [.call i, .send i] s).returned =
        s.returned ++ [{ caller := i, call := k, err := some .ErrInvalidChanMgr }] ∧
      (exec [.call i, .send i] s).m = s.m ∧
      GetChan (exec [.call i, .send i] s).m = GetChan s.m ∧
      ((exec [.call i, .send i] s).callers i).pc = .idle ∧
      ((exec [.call i, .send i] s).callers i).todo = rest := by
  simp [run, exec, step, submitPayload.build, submitPayload.send, hcl, hpc, htodo, retOf, callOf_mk]

/-- Instance of C5: `AddNoBlocking(5)` on a closed `l` returns `ErrInvalidChanMgr`, `c` stays empty. -/
theorem C5_closed_returns_invalid_witness :
    c5State.m.lClosed = true ∧ (c5State.callers 0).pc = .idle ∧
      (c5State.callers 0).todo = [Call.AddNoBlocking 5] ∧
      (exec [.call 0, .send 0] c5State).returned =
        [{ caller := 0, call := Call.AddNoBlocking 5, err := some .ErrInvalidChanMgr }] ∧
      GetChan (exec [.call 0, .send 0] c5State).m = [] := by
  have h := C5_closed_returns_invalid c5State 0 (Call.AddNoBlocking 5) []
    (by decide) (by decide) (by decide)
  exact ⟨by decide, by decide, by decide, h.2.1, h.2.2.2.1⟩

/-- C6: a schedule of `TestContext` in which `Add(2)`, called after the
cancellation, returns nil and 2 is written to `c`.  The goroutine was still at
its `select` when the context was cancelled; when it runs, `ctx.Done()` and
the request in `l` are both ready and the `select` takes the request. -/
theorem C6_add_after_cancel_accepted :
    run (c6Before ++ oneCall) c6Init = some (exec (c6Before ++ oneCall) c6Init) ∧
      (exec c6Before c6Init).errsOf 0 = [none] ∧
      (exec c6Before c6Init).ctxDone = true ∧
      (exec c6Before c6Init).received = [1] ∧
      ((exec c6Before c6Init).callers 0).pc = .idle ∧
      ((exec c6Before c6Init).callers 0).todo = [Call.Add 2] ∧
      (exec (c6Before ++ oneCall) c6Init).errsOf 0 = [none, none] ∧
      GetChan (exec (c6Before ++ oneCall) c6Init).m = [2] :=
  ⟨run_eq_exec _ _ (by decide), by decide, by decide, by decide, by decide, by decide,
    by decide, by decide⟩

theorem lost_trans {T : Type} {p : payload T} {s s' : Sys T} (hi : Lost p s) (h : Trans s s') :
    Lost p s' := by
  obtain ⟨h1, h2, h3, h4, h5, h6, h7⟩ := hi
  cases h with
  | call i k rest hpc htodo =>
    exfalso
    by_cases hi0 : i = 0
    · subst hi0
      rw [h5] at hpc
      cases hpc
    · simp [(h7 i hi0).2] at htodo
  | sendPanic i q hpc hcl =>
    exfalso
    by_cases hi0 : i = 0
    · subst hi0
      rw [h5] at hpc
      cases hpc
    · simp [(h7 i hi0).1] at hpc
  | sendOk i q hpc hcl hl => simp [h2] at hcl
  | recv i q e hpc hch =>
    exfalso
    by_cases hi0 : i = 0
    · subst hi0
      rw [h5] at hpc
      simp only [CallPC.waiting.injEq] at hpc
      subst hpc
      rw [h4] at hch
      cases hch
    · simp [(h7 i hi0).1] at hpc
  | consume x rest hc => exact ⟨h1, h2, h3, h4, h5, h6, h7⟩
  | cancel => exact ⟨h1, h2, h3, h4, h5, h6, h7⟩
  | _ => simp_all

/-- C7: a reachable state in which the goroutine has closed `l` and returned
while `l` still holds a request whose reply channel is empty.  The request
entered `l` between the last test `len(m.l) > 0` and `close(m.l)`.  Nothing
that can still happen changes this: whatever is scheduled afterwards, the
request stays in `l`, its reply channel stays empty, and the caller of
`Add(1)` stays at `err := <-p.c` without ever returning. -/
theorem C7_request_lost_at_close :
    run c7Schedule c7Init = some (exec c7Schedule c7Init) ∧
      (exec c7Schedule c7Init).loop = .done ∧
      (exec c7Schedule c7Init).m.lClosed = true ∧
      (exec c7Schedule c7Init).m.l = [{ blockable := true, t := 1, c := 0 }] ∧
      (exec c7Schedule c7Init).chans 0 = none ∧
      ((exec c7Schedule c7Init).callers 0).pc = .waiting { blockable := true, t := 1, c := 0 } ∧
      ∀ tr : List Action,
        (exec tr (exec c7Schedule c7Init)).m.l = [{ blockable := true, t := 1, c := 0 }] ∧
        (exec tr (exec c7Schedule c7Init)).chans 0 = none ∧
        ((exec tr (exec c7Schedule c7Init)).callers 0).pc =
          .waiting { blockable := true, t := 1, c := 0 } ∧
        (exec tr (exec c7Schedule c7Init)).returned = [] := by
  have h0 : Lost { blockable := true, t := 1, c := 0 } (exec c7Schedule c7Init) := by
    refine ⟨by decide, by decide, by decide, by decide, by decide, by decide, ?_⟩
    intro i hi
    have hc : (exec c7Schedule c7Init).callers i = c7Init.callers i := by
      simp [c7Schedule, exec, step, submitPayload.build, submitPayload.send, NewChanMgr.goroutine, cancelStep, c7Init, NewChanMgr,
        single, Function.update_noteq hi]
    rw [hc]
    simp [c7Init, NewChanMgr, single, hi]
  refine ⟨run_eq_exec _ _ (by decide), by decide, by decide, by decide, by decide, by decide, ?_⟩
  intro tr
  have h := exec_induct (Lost { blockable := true, t := 1, c := 0 })
    (fun _ _ hi ht => lost_trans hi ht) tr _ h0
  exact ⟨h.inL, h.noReply, h.waits, h.noReturn⟩

/-- C8: a schedule of `TestContext3` (cancellation before any submission, no
consumer) in which `Add(1)` returns nil and `AddNoBlocking(1)` returns
`ErrChanIsFull`. -/
theorem C8_full_after_cancel :
    run c8Schedule c8Init = some (exec c8Schedule c8Init) ∧
      (exec [.cancel] c8Init).ctxDone = true ∧
      (exec [.cancel] c8Init).returned = [] ∧
      (exec c8Schedule c8Init).received = [] ∧
      (exec c8Schedule c8Init).errsOf 0 = [none, some .ErrChanIsFull] :=
  ⟨run_eq_exec _ _ (by decide), by decide, by decide, by decide, by decide⟩

theorem two_nil {s : Sys Nat} (hs : SInv 1 [Call.Add 1, Call.Add 2] s) (hi : Inv s)
    (herr : s.returned.map (fun r => r.err) = [none, none]) :
    s.received.head? = some 1 ∧ s.received ++ GetChan s.m = [1, 2] := by
  have hlen : s.returned.length = 2 := by
    have := congrArg List.length herr
    simpa using this
  obtain ⟨h1, h2⟩ := sinv_finished hs hlen
  obtain ⟨r1, r2, hr⟩ := List.length_eq_two.mp hlen
  rw [hr] at herr h1
  simp only [List.map_cons, List.map_nil, List.cons.injEq, and_true] at herr h1
  have hacc : accepted s = [1, 2] := by
    simp [accepted, hr, List.filter_cons, herr.1, herr.2, h1.1, h1.2, Call.item]
  rw [hacc] at h2
  have hcap := hi.capOK
  rw [hs.capEq] at hcap
  refine ⟨?_, by simpa [GetChan] using h2⟩
  cases hrec : s.received with
  | nil =>
    rw [hrec] at h2
    simp only [List.nil_append] at h2
    rw [h2] at hcap
    simp at hcap
  | cons x xs =>
    rw [hrec] at h2
    simp only [List.cons_append, List.cons.injEq] at h2
    simp [h2.1]

/-- C9: in every state reachable from a fresh manager of capacity `capacity`,
`cap(c)` is `capacity` and `len(c)` is at most that; when the goroutine is
about to reply nil for a payload, the item of that payload is the last item
written (the last of what consumers have received followed by what `c` holds);
a step of the goroutine puts a nil into a reply channel only from that place;
and the number of calls that have returned nil is at most `capacity` plus the
number of items consumers have received.  For capacity 1 and a caller doing
`Add(1)` then `Add(2)`: `Add(2)` does not return nil until a consumer has
received 1, and while the context is not cancelled it does not return at all
until then (after a cancellation it may return `ErrInvalidChanMgr` earlier, as
in the schedule `c9Cancelled`).  That is, in every schedule, once both
have returned nil, and likewise once both have returned while the context is
not cancelled, a consumer has received 1 first, and 1 and 2 are, in this
order, what was received and what `c` still holds.  In the schedule
`c9Blocked` neither the goroutine nor the caller can move until a consumer
receives; after that `c9Resume` lets `Add(2)` return nil with 2 in `c`. -/
theorem C9_blocking_waits {T : Type} (capacity : Nat) (scripts : Nat → List (Call T))
    (tr : List Action) :
    ((exec tr (NewChanMgr capacity scripts)).m.capC = capacity ∧
      (GetChan (exec tr (NewChanMgr capacity scripts)).m).length ≤ capacity ∧
      (∀ p, (exec tr (NewChanMgr capacity scripts)).loop = .ok p →
        ((exec tr (NewChanMgr capacity scripts)).received ++
          GetChan (exec tr (NewChanMgr capacity scripts)).m).getLast? = some p.t) ∧
      (∀ (b : Bool) (s2 : Sys T) (k : Nat),
        NewChanMgr.goroutine b (exec tr (NewChanMgr capacity scripts)) = some s2 →
        (exec tr (NewChanMgr capacity scripts)).chans k ≠ some none → s2.chans k = some none →
        ∃ p, (exec tr (NewChanMgr capacity scripts)).loop = .ok p ∧ p.c = k) ∧
      nilReturned (exec tr (NewChanMgr capacity scripts)) ≤
        capacity + (exec tr (NewChanMgr capacity scripts)).received.length) ∧
    (∀ tr2 : List Action,
      ((exec tr2 c9Init).errsOf 0 = [none, none] →
        (exec tr2 c9Init).received.head? = some 1 ∧
          (exec tr2 c9Init).received ++ GetChan (exec tr2 c9Init).m = [1, 2]) ∧
      ((exec tr2 c9Init).ctxDone = false → (exec tr2 c9Init).returned.length = 2 →
        (exec tr2 c9Init).received.head? = some 1 ∧
          (exec tr2 c9Init).received ++ GetChan (exec tr2 c9Init).m = [1, 2])) ∧
    (run c9Blocked c9Init = some (exec c9Blocked c9Init) ∧
      (exec c9Blocked c9Init).errsOf 0 = [none] ∧
      (step (.loop false) (exec c9Blocked c9Init)).isNone = true ∧
      (step (.loop true) (exec c9Blocked c9Init)).isNone = true ∧
      (step (.recv 0) (exec c9Blocked c9Init)).isNone = true ∧
      run (c9Blocked ++ c9Resume) c9Init = some (exec (c9Blocked ++ c9Resume) c9Init) ∧
      (exec (c9Blocked ++ c9Resume) c9Init).errsOf 0 = [none, none] ∧
      (exec (c9Blocked ++ c9Resume) c9Init).received = [1] ∧
      GetChan (exec (c9Blocked ++ c9Resume) c9Init).m = [2]) := by
  refine ⟨?_, ?_, ?_⟩
  · have hi := inv_exec capacity scripts tr
    have hcap : (exec tr (NewChanMgr capacity scripts)).m.capC = capacity :=
      capC_exec tr (NewChanMgr capacity scripts)
    refine ⟨hcap, ?_, ?_, ?_, ?_⟩
    · have := hi.capOK
      rw [hcap] at this
      exact this
    · exact okLast_exec capacity scripts tr
    · intro b s2 k hstep h1 h2
      have ht := trans_of_loopStep hstep
      generalize exec tr (NewChanMgr capacity scripts) = s at ht h1 h2 hstep
      cases ht with
      | call i c rest hpc htodo =>
        by_cases hk : k = s.next
        · subst hk
          simp at h2
        · simp only [Function.update_noteq hk] at h2
          exact absurd h2 h1
      | recv i p e hpc hch =>
        by_cases hk : k = p.c
        · subst hk
          simp at h2
        · simp only [Function.update_noteq hk] at h2
          exact absurd h2 h1
      | full p hl hch =>
        by_cases hk : k = p.c
        · subst hk
          simp at h2
        · simp only [Function.update_noteq hk] at h2
          exact absurd h2 h1
      | drainReply p hl hch =>
        by_cases hk : k = p.c
        · subst hk
          simp at h2
        · simp only [Function.update_noteq hk] at h2
          exact absurd h2 h1
      | ok p hl hch =>
        by_cases hk : k = p.c
        · exact ⟨p, hl, hk.symm⟩
        · simp only [Function.update_noteq hk] at h2
          exact absurd h2 h1
      | _ => exact absurd h2 h1
    · have h1 := hi.count
      have h2 := hi.capOK
      rw [hcap] at h2
      omega
  · intro tr2
    have hs := sinv_exec 1 [Call.Add 1, Call.Add 2] tr2
    have hi := inv_exec 1 (single [Call.Add 1, Call.Add 2]) tr2
    change SInv 1 [Call.Add 1, Call.Add 2] (exec tr2 c9Init) at hs
    change Inv (exec tr2 c9Init) at hi
    refine ⟨?_, ?_⟩
    · intro herr
      rw [errsOf_single _ hs.byZero] at herr
      exact two_nil hs hi herr
    · intro hctx hlen
      refine two_nil hs hi ?_
      obtain ⟨h1, -⟩ := sinv_finished hs hlen
      have hall : ∀ r ∈ (exec tr2 c9Init).returned, r.err = none := by
        intro r hr
        have hmem : r.call ∈ [Call.Add 1, Call.Add 2] := by
          rw [← h1]
          exact List.mem_map_of_mem _ hr
        have hb : r.call.blockable = true := by
          simp only [List.mem_cons, List.mem_singleton, List.not_mem_nil, or_false] at hmem
          rcases hmem with h | h <;> simp [h, Call.blockable]
        have hnf := hi.retOK r hr hb
        cases he : r.err with
        | none => rfl
        | some e =>
          cases e with
          | ErrChanIsFull => exact absurd he hnf
          | ErrInvalidChanMgr =>
            have := hi.exitDone (hi.retInv r hr he)
            rw [hctx] at this
            cases this
      obtain ⟨r1, r2, hr⟩ := List.length_eq_two.mp hlen
      rw [hr] at hall ⊢
      simp [hall r1 (by simp), hall r2 (by simp)]
  · exact ⟨run_eq_exec _ _ (by decide), by decide, by decide, by decide, by decide,
      run_eq_exec _ _ (by decide), by decide, by decide, by decide⟩

/-- C9, as stated, fails once the context is cancelled: capacity 1, `Add(1)`
has returned nil, and in the schedule `c9Cancelled` `Add(2)` returns (with
`ErrInvalidChanMgr`, through the recovered panic on the closed `l`) although no
consumer has received anything and 1 is still in `c`. -/
theorem C9_add_returns_early_when_cancelled :
    run c9Cancelled c9Init = some (exec c9Cancelled c9Init) ∧
      (exec oneCall c9Init).errsOf 0 = [none] ∧
      (exec c9Cancelled c9Init).errsOf 0 = [none, some .ErrInvalidChanMgr] ∧
      (exec c9Cancelled c9Init).returned.length = 2 ∧
      (exec c9Cancelled c9Init).received = [] ∧
      GetChan (exec c9Cancelled c9Init).m = [1] :=
  ⟨run_eq_exec _ _ (by decide), by decide, by decide, by decide, by decide, by decide⟩

/-- C10: once some call has returned `ErrInvalidChanMgr` (state after `tr`),
the goroutine is exiting, and it is still exiting in every later state (after
`tmid`, after `tr2`); from then on `c` only loses items at its head, nothing is
written to it; and every call that returns after a later state `exec tmid _`
and was made by a caller that was outside of any call in that state, that is
every call started afterwards, returns `ErrInvalidChanMgr`.  More generally,
from whatever state, once the goroutine is exiting it stays so. -/
theorem C10_invalid_is_terminal {T : Type} (capacity : Nat) (scripts : Nat → List (Call T))
    (tr tmid tr2 : List Action)
    (hinv : ∃ r ∈ (exec tr (NewChanMgr capacity scripts)).returned,
      r.err = some .ErrInvalidChanMgr) :
    (exec tr (NewChanMgr capacity scripts)).loop.exiting = true ∧
      (exec tmid (exec tr (NewChanMgr capacity scripts))).loop.exiting = true ∧
      (exec tr2 (exec tmid (exec tr (NewChanMgr capacity scripts)))).loop.exiting = true ∧
      (∃ pre, GetChan (exec tr (NewChanMgr capacity scripts)).m =
        pre ++ GetChan (exec tr2 (exec tmid (exec tr (NewChanMgr capacity scripts)))).m) ∧
      (∃ new, (exec tr2 (exec tmid (exec tr (NewChanMgr capacity scripts)))).returned =
          (exec tmid (exec tr (NewChanMgr capacity scripts))).returned ++ new ∧
        ∀ r ∈ new,
          ((exec tmid (exec tr (NewChanMgr capacity scripts))).callers r.caller).pc = .idle →
            r.err = some .ErrInvalidChanMgr) ∧
      (∀ (s : Sys T) (tr3 : List Action), s.loop.exiting = true →
        (exec tr3 s).loop.exiting = true) := by
  obtain ⟨r, hr, he⟩ := hinv
  have h0 := (inv_exec capacity scripts tr).retInv r hr he
  have h1 := after_exec _ h0 tmid
  have h2 := after_exec _ h1.exiting tr2
  have h3 := after_exec _ h0 (tmid ++ tr2)
  rw [exec_append] at h3
  exact ⟨h0, h1.exiting, h2.exiting, h3.queue, h2.rets,
    fun s tr3 hs => (after_exec s hs tr3).exiting⟩

/-- Instance of C10: after `Add(1)` has returned `ErrInvalidChanMgr` the goroutine is exiting and stays so while `Add(2)` is called. -/
theorem C10_invalid_is_terminal_witness :
    (∃ r ∈ (exec c10Before (NewChanMgr 1 (single [Call.Add 1, Call.Add 2]))).returned,
        r.err = some .ErrInvalidChanMgr) ∧
      (exec c10Before (NewChanMgr 1 (single [Call.Add 1, Call.Add 2]))).loop.exiting = true ∧
      (exec [.call 0, .send 0]
        (exec [] (exec c10Before (NewChanMgr 1 (single [Call.Add 1, Call.Add 2]))))).loop.exiting
        = true :=
  have hex : ∃ r ∈ (exec c10Before (NewChanMgr 1 (single [Call.Add 1, Call.Add 2]))).returned,
      r.err = some .ErrInvalidChanMgr :=
    ⟨{ caller := 0, call := Call.Add 1, err := some .ErrInvalidChanMgr }, by decide, rfl⟩
  ⟨hex,
    (C10_invalid_is_terminal 1 (single [Call.Add 1, Call.Add 2]) c10Before []
      [.call 0, .send 0] hex).1,
    (C10_invalid_is_terminal 1 (single [Call.Add 1, Call.Add 2]) c10Before []
      [.call 0, .send 0] hex).2.2.1⟩

end Channel
